import Mathlib

/-!
# yokitheyo/todo: the in-memory repository, the service layer and the handler

A shallow embedding of `internal/domain/todo.go`,
`internal/repository/memory/memory.go`, `internal/service/todo.go` and
`internal/handler/todo.go`.

Modelling conventions.

* Go's `int` is a 64-bit two's-complement integer: values are `Int`s and the
  one arithmetic operation of the code, `r.nextID++`, wraps (`wrapInt`).
* A Go `string` is modelled by a Lean `String` (a sequence of Unicode code
  points, that is, a valid UTF-8 string); `len(s)` is the UTF-8 byte size.
* `time.Time` is an instant on an integer time line; the reading of
  `time.Now()` is an explicit argument `now` of `Create` and `Update`.
* `*domain.Todo` is an index into the heap of allocated `domain.Todo`
  objects. The map `todos map[int]*domain.Todo` is an association list from
  ids to such pointers, so that aliasing between the store and the values
  handed to callers is explicit. A `range` over the map visits the bindings
  in the order of the list; the statements about `GetAll` and `GetFiltered`
  are about the elements of the result, not their order.
* `[]domain.Todo` is an `Option (List Todo)`, `none` being the nil slice,
  which `encoding/json` writes as `null`.
* `unicode.ToLower` is an argument `toLower` of the functions that compare
  texts without regard to case.
* A request carries what `decodeJSON` yields on its body; a response is its
  status code and the value that is encoded into its body. Logging and the
  request context are left out.
* The mutex is not modelled: every operation is one atomic step.
-/

namespace TodoApp

/-! ## internal/domain/todo.go -/

/-- The error values declared in `domain`. -/
inductive Err where
  | ErrTodoNotFound
  | ErrTitleRequired
  | ErrTitleTooLong
  | ErrDescriptionTooLong
  | ErrInvalidID
  | ErrInvalidPath
  deriving DecidableEq, Repr

/-- The text of each error, as given to `errors.New`. -/
def Err.Error : Err → String
  | .ErrTodoNotFound => "todo not found"
  | .ErrTitleRequired => "title required"
  | .ErrTitleTooLong => "title is too long(max 255)"
  | .ErrDescriptionTooLong => "description is too long(max 1_000)"
  | .ErrInvalidID => "invalid id"
  | .ErrInvalidPath => "invalid path"

def MaxTitleLength : Nat := 255

def MaxDescriptionLength : Nat := 1000

/-- An instant, as read from the clock. -/
abbrev Time := Int

structure Todo where
  ID : Int
  Title : String
  Description : String
  Completed : Bool
  CreatedAt : Time
  UpdatedAt : Time
  deriving DecidableEq, Repr

structure CreateTodoInput where
  Title : String
  Description : String
  Completed : Bool
  deriving DecidableEq, Repr

/-- The three pointer fields of the Go struct: `none` is the nil pointer. -/
structure UpdateTodoInput where
  Title : Option String
  Description : Option String
  Completed : Option Bool
  deriving DecidableEq, Repr

/-! ## Machine integers, pointers and the map -/

/-- Reduction of an integer to the range of Go's 64-bit `int`. -/
def wrapInt (x : Int) : Int := (x + 2 ^ 63) % 2 ^ 64 - 2 ^ 63

/-- The largest value of Go's 64-bit `int`. -/
def maxInt : Int := 2 ^ 63 - 1

/-- A `*domain.Todo`: the index of the object in the heap. -/
abbrev Ptr := Nat

/-- The lookup `m[id]` of a Go map, `none` when the key is absent. -/
def mapGet : List (Int × Ptr) → Int → Option Ptr
  | [], _ => none
  | (k, v) :: m, id => if k = id then some v else mapGet m id

/-- The builtin `delete(m, id)`. -/
def mapDel : List (Int × Ptr) → Int → List (Int × Ptr)
  | [], _ => []
  | (k, v) :: m, id => if k = id then mapDel m id else (k, v) :: mapDel m id

/-- The assignment `m[id] = v`: any earlier binding of `id` is replaced. -/
def mapSet (m : List (Int × Ptr)) (id : Int) (v : Ptr) : List (Int × Ptr) :=
  (id, v) :: mapDel m id

/-! ## Slices and the string functions of the standard library -/

/-- A value of type `[]domain.Todo`: `none` is the nil slice, `some l` a slice
that is not nil with the elements `l`. -/
abbrev TodoSlice := Option (List Todo)

/-- The builtin `append(s, t)`: appending to the nil slice allocates. -/
def appendSlice : TodoSlice → Todo → TodoSlice
  | none, t => some [t]
  | some l, t => some (l ++ [t])

/-- The elements of a slice; the nil slice has none. -/
def elems : TodoSlice → List Todo
  | none => []
  | some l => l

/-- Go's `strings.ToLower`, which maps every code point with
`unicode.ToLower`; the mapping of code points is the argument `toLower`. -/
def ToLower (toLower : Char → Char) (s : String) : String := ⟨s.data.map toLower⟩

/-- Go's `strings.Contains`: `substr` occurs in `s` as a contiguous part. -/
def Contains (s substr : String) : Bool := decide (substr.data <:+: s.data)

/-! ## internal/repository/memory/memory.go -/

/-- The repository object together with the memory its map points into:
`heap` holds every `domain.Todo` allocated by `Create` (a deleted record stays
allocated for as long as a caller may hold its pointer), `todos` is the map
and `nextID` the id counter. -/
structure TodoRepository where
  heap : List Todo
  todos : List (Int × Ptr)
  nextID : Int
  deriving DecidableEq, Repr

def NewTodoRepository : TodoRepository :=
  { heap := [], todos := [], nextID := 1 }

namespace TodoRepository

/-- The object a pointer refers to, `*p`. -/
def load (r : TodoRepository) (p : Ptr) : Option Todo := r.heap[p]?

/-- `Create` allocates the record, stores its pointer under `nextID`,
increments the counter and returns that same pointer. -/
def Create (r : TodoRepository) (now : Time) (input : CreateTodoInput) :
    TodoRepository × Except Err Ptr :=
  let todo : Todo :=
    { ID := r.nextID
      Title := input.Title
      Description := input.Description
      Completed := input.Completed
      CreatedAt := now
      UpdatedAt := now }
  let p : Ptr := r.heap.length
  ({ heap := r.heap ++ [todo]
     todos := mapSet r.todos r.nextID p
     nextID := wrapInt (r.nextID + 1) }, .ok p)

/-- `GetByID` returns the pointer stored in the map. -/
def GetByID (r : TodoRepository) (id : Int) : Except Err Ptr :=
  match mapGet r.todos id with
  | none => .error .ErrTodoNotFound
  | some todo => .ok todo

/-- The assignments `Update` makes to the stored object. -/
def applyUpdate (now : Time) (input : UpdateTodoInput) (todo : Todo) : Todo :=
  let todo := match input.Title with
    | some t => { todo with Title := t }
    | none => todo
  let todo := match input.Description with
    | some d => { todo with Description := d }
    | none => todo
  let todo := match input.Completed with
    | some c => { todo with Completed := c }
    | none => todo
  { todo with UpdatedAt := now }

/-- `Update` writes through the stored pointer and returns it. -/
def Update (r : TodoRepository) (now : Time) (id : Int) (input : UpdateTodoInput) :
    TodoRepository × Except Err Ptr :=
  match mapGet r.todos id with
  | none => (r, .error .ErrTodoNotFound)
  | some todo => ({ r with heap := r.heap.modify (applyUpdate now input) todo }, .ok todo)

/-- `Delete` returns the error, `none` for nil. -/
def Delete (r : TodoRepository) (id : Int) : TodoRepository × Option Err :=
  match mapGet r.todos id with
  | none => (r, some .ErrTodoNotFound)
  | some _ => ({ r with todos := mapDel r.todos id }, none)

/-- One iteration of a `range r.todos` loop that appends `*todo` to the
slice unless the iteration is skipped with `continue`. -/
def appendUnless (r : TodoRepository) (skip : Todo → Bool) (acc : TodoSlice)
    (e : Int × Ptr) : TodoSlice :=
  match r.load e.2 with
  | none => acc
  | some todo => if skip todo then acc else appendSlice acc todo

/-- `GetAll` starts from `make([]domain.Todo, 0, len(r.todos))`, an empty
slice that is not nil, and appends a copy of every stored object. -/
def GetAll (r : TodoRepository) : Except Err TodoSlice :=
  .ok (r.todos.foldl (r.appendUnless fun _ => false) (some []))

/-- The two `continue` conditions of `GetFiltered`, for a filter `completed`
(`none` is the nil pointer) and a search text; `toLower` is Go's
`unicode.ToLower`. -/
def skipped (toLower : Char → Char) (completed : Option Bool) (search : String)
    (todo : Todo) : Bool :=
  (match completed with
    | some c => todo.Completed != c
    | none => false) ||
  (search != "" && !Contains (ToLower toLower todo.Title) (ToLower toLower search) &&
    !Contains (ToLower toLower todo.Description) (ToLower toLower search))

/-- `GetFiltered` starts from `var filtered []domain.Todo`, the nil slice,
and appends a copy of every stored object that is not skipped. -/
def GetFiltered (toLower : Char → Char) (r : TodoRepository) (completed : Option Bool)
    (search : String) : Except Err TodoSlice :=
  .ok (r.todos.foldl (r.appendUnless (skipped toLower completed search)) none)

/-- An assignment by a caller through a pointer it was handed, such as
`todo.Title = "x"`: the write goes to the heap object, outside any method of
the repository. -/
def callerWrite (r : TodoRepository) (p : Ptr) (f : Todo → Todo) : TodoRepository :=
  { r with heap := r.heap.modify f p }

end TodoRepository

/-! ## internal/service/todo.go -/

/-- Go's `unicode.IsSpace`: the code points with the Unicode White_Space
property. -/
def isSpace (c : Char) : Bool :=
  let n := c.toNat
  (0x09 ≤ n && n ≤ 0x0D) || n == 0x20 || n == 0x85 || n == 0xA0 || n == 0x1680 ||
  (0x2000 ≤ n && n ≤ 0x200A) || n == 0x2028 || n == 0x2029 || n == 0x202F ||
  n == 0x205F || n == 0x3000

/-- Go's `strings.TrimSpace`: the string without its leading and trailing
white space. -/
def TrimSpace (s : String) : String :=
  ⟨(s.data.dropWhile isSpace).rdropWhile isSpace⟩

/-- Go's builtin `len` on a string: the number of bytes. -/
def len (s : String) : Nat := s.utf8ByteSize

/-- An `error` result, `none` for nil. -/
def validateTitle (title : String) : Option Err :=
  let t := TrimSpace title
  if t = "" then some .ErrTitleRequired
  else if len t > MaxTitleLength then some .ErrTitleTooLong
  else none

def validateDescription (desc : String) : Option Err :=
  if len desc > MaxDescriptionLength then some .ErrDescriptionTooLong
  else none

def validateCreateInput (input : CreateTodoInput) : Option Err :=
  match validateTitle input.Title with
  | some err => some err
  | none =>
    match validateDescription input.Description with
    | some err => some err
    | none => none

def validateUpdateInput (input : UpdateTodoInput) : Option Err :=
  match input.Title with
  | some title =>
    if validateTitle title ≠ none then validateTitle title
    else
      match input.Description with
      | some desc => validateDescription desc
      | none => none
  | none =>
    match input.Description with
    | some desc => validateDescription desc
    | none => none

def validateID (id : Int) : Option Err :=
  if id ≤ 0 then some .ErrInvalidID else none

/-! The methods of `service.TodoService`, run against the in-memory
repository the service is constructed with. -/

namespace TodoService

def Create (r : TodoRepository) (now : Time) (input : CreateTodoInput) :
    TodoRepository × Except Err Ptr :=
  let input := { input with Title := TrimSpace input.Title }
  let input := { input with Description := TrimSpace input.Description }
  match validateCreateInput input with
  | some err => (r, .error err)
  | none => r.Create now input

def GetByID (r : TodoRepository) (id : Int) : Except Err Ptr :=
  match validateID id with
  | some err => .error err
  | none => r.GetByID id

def GetAll (r : TodoRepository) : Except Err TodoSlice := r.GetAll

def Update (r : TodoRepository) (now : Time) (id : Int) (input : UpdateTodoInput) :
    TodoRepository × Except Err Ptr :=
  match validateID id with
  | some err => (r, .error err)
  | none =>
    match validateUpdateInput input with
    | some err => (r, .error err)
    | none =>
      let input := match input.Title with
        | some title => { input with Title := some (TrimSpace title) }
        | none => input
      let input := match input.Description with
        | some desc => { input with Description := some (TrimSpace desc) }
        | none => input
      r.Update now id input

def Delete (r : TodoRepository) (id : Int) : TodoRepository × Option Err :=
  match validateID id with
  | some err => (r, some err)
  | none => r.Delete id

/-- Modelled from the spec: `GetFiltered` of the service. The interface
`handler.TodoService` declares it and `getFilteredTodos` calls it, but
`internal/service/todo.go` defines no such method. The spec describes it as a
"pass-through to Repository.GetFiltered (search string used as-is)". -/
def GetFiltered (toLower : Char → Char) (r : TodoRepository) (completed : Option Bool)
    (search : String) : Except Err TodoSlice :=
  r.GetFiltered toLower completed search

end TodoService

/-! ## internal/handler/todo.go -/

/-- A value of the interface type `error` that is not nil: one of the values
declared in `domain`, an error unrelated to them with its text, or an error
that wraps another one (`Unwrap`) under a text of its own. -/
inductive GoError where
  | sentinel (e : Err)
  | other (text : String)
  | wrap (text : String) (inner : GoError)
  deriving DecidableEq, Repr

/-- The method `Error()`. -/
def GoError.Error : GoError → String
  | .sentinel e => e.Error
  | .other text => text
  | .wrap text _ => text

/-- Go's `errors.Is(err, target)` for a target declared in `domain`: the
target is `err` or is reached from it by unwrapping. -/
def errorsIs : GoError → Err → Bool
  | .sentinel e, target => e == target
  | .other _, _ => false
  | .wrap _ inner, target => errorsIs inner target

/-- What is written to the response body: nothing, the encoding of an
`errorResponse`, of a `*domain.Todo` or of a `[]domain.Todo`. -/
inductive Body where
  | empty
  | error (message : String)
  | todo (t : Todo)
  | todos (s : TodoSlice)
  deriving DecidableEq, Repr

/-- The text `encoding/json` writes for a slice without elements: `null` for
the nil slice, `[]` for an empty slice that is not nil. -/
def encodeEmpty : TodoSlice → Option String
  | none => some "null"
  | some [] => some "[]"
  | some (_ :: _) => none

structure Response where
  status : Nat
  body : Body
  deriving DecidableEq, Repr

def StatusOK : Nat := 200
def StatusCreated : Nat := 201
def StatusNoContent : Nat := 204
def StatusBadRequest : Nat := 400
def StatusNotFound : Nat := 404
def StatusMethodNotAllowed : Nat := 405
def StatusInternalServerError : Nat := 500

/-- What `decodeJSON` returns on a request body when it fails: the error
kinds `handleRequestError` tells apart. -/
inductive DecodeError where
  | syntaxError (offset : Int)
  | unmarshalTypeError (field : String)
  | eof
  | otherError
  deriving DecidableEq, Repr

/-- The parts of an `*http.Request` the handlers read: the method, the path
`r.URL.Path`, the values `r.URL.Query().Get` gives for `completed` and
`search` (empty when the parameter is missing), and what `decodeJSON` yields
on the body for each of the two input types. -/
structure Request where
  Method : String
  Path : String
  completed : String
  search : String
  createBody : Except DecodeError CreateTodoInput
  updateBody : Except DecodeError UpdateTodoInput

/-- Go's `strings.TrimPrefix`. -/
def TrimPrefix (s pre : String) : String :=
  if pre.data.isPrefixOf s.data then ⟨s.data.drop pre.data.length⟩ else s

/-- Go's `strings.TrimSuffix`. -/
def TrimSuffix (s suf : String) : String :=
  if suf.data.isSuffixOf s.data then ⟨s.data.take (s.data.length - suf.data.length)⟩ else s

/-- The value of a decimal digit, `none` for any other character. -/
def digitVal (c : Char) : Option Nat :=
  if 48 ≤ c.toNat ∧ c.toNat ≤ 57 then some (c.toNat - 48) else none

/-- The number a string of decimal digits denotes, given the number `acc`
denoted by the digits read so far; `none` if a character is not a digit. -/
def parseDigits : Nat → List Char → Option Nat
  | acc, [] => some acc
  | acc, c :: cs =>
    match digitVal c with
    | none => none
    | some d => parseDigits (acc * 10 + d) cs

/-- The part of `strconv.Atoi` after the sign: at least one character, all of
them decimal digits, and the signed value in the range of a 64-bit `int`;
`none` when an error is returned. -/
def atoiDigits (neg : Bool) (ds : List Char) : Option Int :=
  match ds with
  | [] => none
  | _ :: _ =>
    match parseDigits 0 ds with
    | none => none
    | some n =>
      let v : Int := if neg then -(n : Int) else (n : Int)
      if -(2 ^ 63) ≤ v ∧ v ≤ maxInt then some v else none

/-- Go's `strconv.Atoi` on a 64-bit platform, `none` when it returns an
error: an optional sign, then the digits. -/
def Atoi (s : String) : Option Int :=
  match s.data with
  | [] => none
  | c :: cs =>
    if c = '+' then atoiDigits false cs
    else if c = '-' then atoiDigits true cs
    else atoiDigits false (c :: cs)

/-- The decimal digits of a number, least significant first, at most `fuel`
of them. -/
def decDigits : Nat → Nat → List Nat
  | 0, _ => []
  | fuel + 1, n => if n < 10 then [n] else n % 10 :: decDigits fuel (n / 10)

/-- The character of a decimal digit. -/
def digitChar (d : Nat) : Char := Char.ofNat (48 + d)

/-- Go's `strconv.Itoa` on a 64-bit `int`, whose decimal form has at most
19 digits. -/
def Itoa (n : Int) : String :=
  if n < 0 then ⟨'-' :: (decDigits 20 n.natAbs).reverse.map digitChar⟩
  else ⟨(decDigits 20 n.toNat).reverse.map digitChar⟩

namespace TodoHandler

/-- `respondError` writes the status and an `errorResponse`. -/
def respondError (status : Nat) (message : String) : Response :=
  { status := status, body := .error message }

/-- What is left of the path in `extractID` before it is parsed. -/
def remainder (path : String) : String :=
  TrimSuffix (TrimPrefix path "/todos/") "/"

def extractID (path : String) : Except Err Int :=
  let path := TrimPrefix path "/todos/"
  let path := TrimSuffix path "/"
  if path = "" then .error .ErrInvalidPath
  else
    match Atoi path with
    | none => .error .ErrInvalidID
    | some id => if id ≤ 0 then .error .ErrInvalidID else .ok id

def handleServiceError (err : GoError) : Response :=
  if errorsIs err .ErrTodoNotFound then respondError StatusNotFound "todo not found"
  else if errorsIs err .ErrTitleRequired || errorsIs err .ErrTitleTooLong ||
      errorsIs err .ErrDescriptionTooLong || errorsIs err .ErrInvalidID then
    respondError StatusBadRequest err.Error
  else respondError StatusInternalServerError "internal server error"

def handleRequestError (err : DecodeError) : Response :=
  match err with
  | .syntaxError offset =>
    respondError StatusBadRequest ("malformed JSON at position " ++ Itoa offset)
  | .unmarshalTypeError field =>
    respondError StatusBadRequest ("invalid value for field " ++ field)
  | .eof => respondError StatusBadRequest "empty request body"
  | .otherError => respondError StatusBadRequest "invalid request body"

/-- `respondJSON` with a `*domain.Todo`: the object behind the pointer is
encoded. -/
def respondTodo (r : TodoRepository) (status : Nat) (p : Ptr) : Response :=
  match r.load p with
  | some t => { status := status, body := .todo t }
  | none => { status := status, body := .empty }

def createTodo (r : TodoRepository) (now : Time) (req : Request) :
    TodoRepository × Response :=
  match req.createBody with
  | .error err => (r, handleRequestError err)
  | .ok input =>
    match TodoService.Create r now input with
    | (r1, .error err) => (r1, handleServiceError (.sentinel err))
    | (r1, .ok todo) => (r1, respondTodo r1 StatusCreated todo)

def getAllTodos (r : TodoRepository) : TodoRepository × Response :=
  match TodoService.GetAll r with
  | .error _ => (r, respondError StatusInternalServerError "internal server error")
  | .ok todos => (r, { status := StatusOK, body := .todos todos })

def getTodoByID (r : TodoRepository) (id : Int) : TodoRepository × Response :=
  match TodoService.GetByID r id with
  | .error err => (r, handleServiceError (.sentinel err))
  | .ok todo => (r, respondTodo r StatusOK todo)

def updateTodo (r : TodoRepository) (now : Time) (req : Request) (id : Int) :
    TodoRepository × Response :=
  match req.updateBody with
  | .error err => (r, handleRequestError err)
  | .ok input =>
    match TodoService.Update r now id input with
    | (r1, .error err) => (r1, handleServiceError (.sentinel err))
    | (r1, .ok todo) => (r1, respondTodo r1 StatusOK todo)

def deleteTodo (r : TodoRepository) (id : Int) : TodoRepository × Response :=
  match TodoService.Delete r id with
  | (r1, some err) => (r1, handleServiceError (.sentinel err))
  | (r1, none) => (r1, { status := StatusNoContent, body := .empty })

def getFilteredTodos (toLower : Char → Char) (r : TodoRepository) (req : Request) :
    TodoRepository × Response :=
  let completedStr := req.completed
  let search := req.search
  let completed : Option Bool :=
    if completedStr ≠ "" then some (decide (completedStr = "true")) else none
  match TodoService.GetFiltered toLower r completed search with
  | .error err => (r, handleServiceError (.sentinel err))
  | .ok todos => (r, { status := StatusOK, body := .todos todos })

def todosHandler (toLower : Char → Char) (r : TodoRepository) (now : Time) (req : Request) :
    TodoRepository × Response :=
  if req.Method = "POST" then createTodo r now req
  else if req.Method = "GET" then
    if req.completed ≠ "" ∨ req.search ≠ "" then getFilteredTodos toLower r req
    else getAllTodos r
  else (r, respondError StatusMethodNotAllowed "method not allowed")

def todoByIDHandler (r : TodoRepository) (now : Time) (req : Request) :
    TodoRepository × Response :=
  match extractID req.Path with
  | .error _ => (r, respondError StatusBadRequest "invalid todo id")
  | .ok id =>
    if req.Method = "GET" then getTodoByID r id
    else if req.Method = "PUT" then updateTodo r now req id
    else if req.Method = "DELETE" then deleteTodo r id
    else (r, respondError StatusMethodNotAllowed "method not allowed")

end TodoHandler

/-! ## Runs of the repository -/

/-- A mutating call on the repository. -/
inductive Op where
  | create (now : Time) (input : CreateTodoInput)
  | update (now : Time) (id : Int) (input : UpdateTodoInput)
  | delete (id : Int)
  deriving DecidableEq, Repr

/-- The state after one call. -/
def step (r : TodoRepository) : Op → TodoRepository
  | .create now input => (r.Create now input).1
  | .update now id input => (r.Update now id input).1
  | .delete id => (r.Delete id).1

/-- The state after a sequence of calls. -/
def run (r : TodoRepository) : List Op → TodoRepository
  | [] => r
  | op :: ops => run (step r op) ops

/-- The ids of the records returned by the `Create` calls of a run, in the
order of the calls. -/
def createdIDs (r : TodoRepository) : List Op → List (Option Int)
  | [] => []
  | .create now input :: ops =>
    (match (r.Create now input).2 with
      | .ok p => ((r.Create now input).1.load p).map (·.ID)
      | .error _ => none) :: createdIDs (r.Create now input).1 ops
  | .update now id input :: ops => createdIDs (r.Update now id input).1 ops
  | .delete id :: ops => createdIDs (r.Delete id).1 ops

/-- The number of `Create` calls in a sequence. -/
def countCreates : List Op → Nat
  | [] => 0
  | .create _ _ :: ops => countCreates ops + 1
  | .update _ _ _ :: ops => countCreates ops
  | .delete _ :: ops => countCreates ops

/-- The representation invariant of the repository: every binding of the map
points at an allocated object that carries the binding's key as its id, keys
lie in `[1, nextID)`, and no key and no pointer occurs twice. -/
def WF (r : TodoRepository) : Prop :=
  (∀ e ∈ r.todos, 1 ≤ e.1 ∧ e.1 < r.nextID ∧ (r.load e.2).map (·.ID) = some e.1) ∧
  (r.todos.map Prod.fst).Nodup ∧ (r.todos.map Prod.snd).Nodup

instance (r : TodoRepository) : Decidable (WF r) := by
  unfold WF; infer_instance

/-- The number of `Delete` calls of a run that return nil. -/
def countDeletes (r : TodoRepository) : List Op → Nat
  | [] => 0
  | .create now input :: ops => countDeletes (r.Create now input).1 ops
  | .update now id input :: ops => countDeletes (r.Update now id input).1 ops
  | .delete id :: ops =>
    (if (r.Delete id).2 = none then 1 else 0) + countDeletes (r.Delete id).1 ops

/-- The readings of the clock at the calls of a run that have one, in the
order of the calls. -/
def clockReadings : List Op → List Time
  | [] => []
  | .create now _ :: ops => now :: clockReadings ops
  | .update now _ _ :: ops => now :: clockReadings ops
  | .delete _ :: ops => clockReadings ops

/-! ## Runs of the service -/

/-- A call of one of the six methods of the service. -/
inductive Call where
  | create (now : Time) (input : CreateTodoInput)
  | getByID (id : Int)
  | getAll
  | update (now : Time) (id : Int) (input : UpdateTodoInput)
  | delete (id : Int)
  | getFiltered (completed : Option Bool) (search : String)
  deriving DecidableEq, Repr

/-- The state after one call of the service; the three reads leave the
state as it is. -/
def serve (r : TodoRepository) : Call → TodoRepository
  | .create now input => (TodoService.Create r now input).1
  | .getByID _ => r
  | .getAll => r
  | .update now id input => (TodoService.Update r now id input).1
  | .delete id => (TodoService.Delete r id).1
  | .getFiltered _ _ => r

/-- The state after a sequence of calls of the service. -/
def serveAll (r : TodoRepository) : List Call → TodoRepository
  | [] => r
  | c :: cs => serveAll (serve r c) cs

/-! ## Sample inputs -/

/-- The input of the repository test. -/
def sampleInput : CreateTodoInput :=
  { Title := "Test Task", Description := "Test Description", Completed := false }

/-- A run that creates two records, deletes the first, creates a third and
marks the second as completed. -/
def sampleOps : List Op :=
  [.create 10 sampleInput, .create 11 sampleInput, .delete 1, .create 12 sampleInput,
   .update 13 2 { Title := none, Description := none, Completed := some true }]

/-- The repository after the first `Create` of the repository test. -/
def sampleRepo : TodoRepository := (NewTodoRepository.Create 10 sampleInput).1

/-- A title of 255 two-byte characters. -/
def title255TwoByte : String := ⟨List.replicate 255 'é'⟩

/-- A title of 256 one-byte characters, the title of the service test. -/
def title256 : String := ⟨List.replicate 256 'a'⟩

/-- A title of 255 one-byte characters. -/
def title255 : String := ⟨List.replicate 255 'a'⟩

/-- The repository after `sampleOps`: record 2, completed, and record 3. -/
def sampleStore : TodoRepository := run NewTodoRepository sampleOps

/-- A `GET /todos` request with the given query values and no body. -/
def getTodos (completed search : String) : Request :=
  { Method := "GET", Path := "/todos", completed := completed, search := search,
    createBody := .error .eof, updateBody := .error .eof }

/-- A `POST /todos` request whose body decodes to `input`. -/
def postTodos (input : CreateTodoInput) : Request :=
  { Method := "POST", Path := "/todos", completed := "", search := "",
    createBody := .ok input, updateBody := .error .otherError }

/-- A request on `/todos/{id}` with the given method and, for `PUT`, what the
body decodes to. -/
def byID (method : String) (id : Int) (update : Except DecodeError UpdateTodoInput) :
    Request :=
  { Method := method, Path := "/todos/" ++ Itoa id, completed := "", search := "",
    createBody := .error .eof, updateBody := update }

/-- The create body of the handler test. -/
def task1 : CreateTodoInput := { Title := "Task 1", Description := "Desc 1", Completed := false }

/-- The update body of the handler test. -/
def task1Update : UpdateTodoInput :=
  { Title := some "Updated Task", Description := some "Updated Desc", Completed := some true }

/-- A description of 1000 one-byte characters followed by one space. -/
def desc1001 : String := ⟨List.replicate 1000 'a' ++ [' ']⟩

/-- A description of 1000 one-byte characters. -/
def desc1000 : String := ⟨List.replicate 1000 'a'⟩

/-- Two calls of the service with fields that carry outer white space. -/
def sampleCalls : List Call :=
  [.create 1 ⟨"  Buy milk ", " two litres\n", false⟩,
   .update 2 1 ⟨none, some "\tthree litres ", some true⟩]

/-- The record in the store after `sampleCalls`. -/
def sampleRecord : Todo := ⟨1, "Buy milk", "three litres", true, 1, 2⟩

/-! ## Lemmas on machine integers and the map -/

theorem wrapInt_eq {x : Int} (h1 : -(2 ^ 63) ≤ x) (h2 : x < 2 ^ 63) : wrapInt x = x := by
  unfold wrapInt
  rw [Int.emod_eq_of_lt (by omega) (by omega)]
  omega

theorem mapDel_eq_filter (m : List (Int × Ptr)) (id : Int) :
    mapDel m id = m.filter fun e => decide (e.1 ≠ id) := by
  induction m with
  | nil => rfl
  | cons e m ih =>
    obtain ⟨k, v⟩ := e
    by_cases h : k = id <;> simp [mapDel, h, ih]

theorem mapGet_mapDel_self (m : List (Int × Ptr)) (id : Int) :
    mapGet (mapDel m id) id = none := by
  induction m with
  | nil => rfl
  | cons e m ih =>
    obtain ⟨k, v⟩ := e
    by_cases h : k = id <;> simp [mapDel, mapGet, h, ih]

theorem mapGet_mapDel_ne (m : List (Int × Ptr)) {id k : Int} (h : k ≠ id) :
    mapGet (mapDel m id) k = mapGet m k := by
  induction m with
  | nil => rfl
  | cons e m ih =>
    obtain ⟨j, v⟩ := e
    by_cases hj : j = id
    · have hjk : ¬ j = k := fun hh => h (hh ▸ hj)
      simp only [mapDel, mapGet, if_pos hj, if_neg hjk, ih]
    · by_cases hjk : j = k
      · simp only [mapDel, mapGet, if_neg hj, if_pos hjk]
      · simp only [mapDel, mapGet, if_neg hj, if_neg hjk, ih]

theorem mapGet_mapSet_self (m : List (Int × Ptr)) (id : Int) (v : Ptr) :
    mapGet (mapSet m id v) id = some v := by
  simp [mapSet, mapGet]

theorem mapGet_mapSet_ne (m : List (Int × Ptr)) {id k : Int} (v : Ptr) (h : k ≠ id) :
    mapGet (mapSet m id v) k = mapGet m k := by
  have h2 : ¬ id = k := fun hh => h hh.symm
  simp [mapSet, mapGet, h2, mapGet_mapDel_ne m h]

theorem mem_of_mapGet {m : List (Int × Ptr)} {k : Int} {p : Ptr}
    (h : mapGet m k = some p) : (k, p) ∈ m := by
  induction m with
  | nil => simp [mapGet] at h
  | cons e m ih =>
    obtain ⟨j, v⟩ := e
    by_cases hj : j = k
    · simp [mapGet, hj] at h
      simp [hj, h]
    · simp [mapGet, hj] at h
      exact List.mem_cons_of_mem _ (ih h)

theorem mapGet_of_mem {m : List (Int × Ptr)} {k : Int} {p : Ptr}
    (hnd : (m.map Prod.fst).Nodup) (h : (k, p) ∈ m) : mapGet m k = some p := by
  induction m with
  | nil => simp at h
  | cons e m ih =>
    obtain ⟨j, v⟩ := e
    simp only [List.map_cons, List.nodup_cons] at hnd
    rcases List.mem_cons.1 h with heq | hmem
    · cases heq
      simp [mapGet]
    · have hne : ¬ j = k := by
        intro hh
        apply hnd.1
        rw [hh]
        exact List.mem_map_of_mem Prod.fst hmem
      simp [mapGet, hne, ih hnd.2 hmem]

theorem mapDel_of_not_mem {m : List (Int × Ptr)} {id : Int}
    (h : ∀ e ∈ m, e.1 ≠ id) : mapDel m id = m := by
  rw [mapDel_eq_filter]
  apply List.filter_eq_self.2
  intro e he
  simpa using h e he

/-! ## The representation invariant -/

theorem load_lt {r : TodoRepository} {p : Ptr} {t : Todo} (h : r.load p = some t) :
    p < r.heap.length := by
  unfold TodoRepository.load at h
  exact (List.getElem?_eq_some_iff.1 h).1

theorem load_Create_old (r : TodoRepository) (now : Time) (input : CreateTodoInput)
    {p : Ptr} (h : p < r.heap.length) : (r.Create now input).1.load p = r.load p := by
  simp [TodoRepository.Create, TodoRepository.load, List.getElem?_append_left h]

theorem load_Create_new (r : TodoRepository) (now : Time) (input : CreateTodoInput) :
    (r.Create now input).1.load r.heap.length =
      some { ID := r.nextID, Title := input.Title, Description := input.Description,
             Completed := input.Completed, CreatedAt := now, UpdatedAt := now } := by
  simp [TodoRepository.Create, TodoRepository.load]

theorem WF_New : WF NewTodoRepository := by
  simp [WF, NewTodoRepository]

theorem todos_Create {r : TodoRepository} (now : Time) (input : CreateTodoInput) (h : WF r) :
    (r.Create now input).1.todos = (r.nextID, r.heap.length) :: r.todos := by
  have hd : mapDel r.todos r.nextID = r.todos :=
    mapDel_of_not_mem fun e he => by have := (h.1 e he).2.1; omega
  simp [TodoRepository.Create, mapSet, hd]

theorem WF_Create {r : TodoRepository} (now : Time) (input : CreateTodoInput) (h : WF r)
    (h1 : 1 ≤ r.nextID) (h2 : r.nextID < maxInt) : WF (r.Create now input).1 := by
  have hn : (r.Create now input).1.nextID = r.nextID + 1 := by
    simp only [TodoRepository.Create]
    unfold maxInt at h2
    exact wrapInt_eq (by omega) (by omega)
  refine ⟨?_, ?_, ?_⟩
  · intro e he
    rw [todos_Create now input h] at he
    rw [hn]
    rcases List.mem_cons.1 he with heq | hmem
    · subst heq
      refine ⟨h1, by omega, ?_⟩
      simp [load_Create_new]
    · obtain ⟨a, b, c⟩ := h.1 e hmem
      refine ⟨a, by omega, ?_⟩
      cases hl : r.load e.2 with
      | none => simp [hl] at c
      | some t => rw [load_Create_old r now input (load_lt hl), hl]; rw [hl] at c; exact c
  · rw [todos_Create now input h]
    simp only [List.map_cons, List.nodup_cons]
    refine ⟨?_, h.2.1⟩
    intro hmem
    obtain ⟨e, he, hk⟩ := List.mem_map.1 hmem
    have := (h.1 e he).2.1
    omega
  · rw [todos_Create now input h]
    simp only [List.map_cons, List.nodup_cons]
    refine ⟨?_, h.2.2⟩
    intro hmem
    obtain ⟨e, he, hk⟩ := List.mem_map.1 hmem
    have c := (h.1 e he).2.2
    cases hl : r.load e.2 with
    | none => simp [hl] at c
    | some t =>
      have hlt := load_lt hl
      rw [hk] at hlt
      exact Nat.lt_irrefl _ hlt

theorem load_Update (r : TodoRepository) (now : Time) (id : Int) (input : UpdateTodoInput)
    {p : Ptr} (hp : mapGet r.todos id = some p) (q : Ptr) :
    (r.Update now id input).1.load q =
      if p = q then (r.load q).map (TodoRepository.applyUpdate now input) else r.load q := by
  simp only [TodoRepository.Update, hp, TodoRepository.load, List.getElem?_modify]
  by_cases hq : p = q <;> cases r.heap[q]? <;> simp [hq]

theorem applyUpdate_ID (now : Time) (input : UpdateTodoInput) (t : Todo) :
    (TodoRepository.applyUpdate now input t).ID = t.ID := by
  unfold TodoRepository.applyUpdate
  cases input.Title <;> cases input.Description <;> cases input.Completed <;> rfl

theorem WF_Update {r : TodoRepository} (now : Time) (id : Int) (input : UpdateTodoInput)
    (h : WF r) : WF (r.Update now id input).1 := by
  cases hp : mapGet r.todos id with
  | none => simpa [TodoRepository.Update, hp] using h
  | some p =>
    have ht : (r.Update now id input).1.todos = r.todos := by
      simp [TodoRepository.Update, hp]
    have hn : (r.Update now id input).1.nextID = r.nextID := by
      simp [TodoRepository.Update, hp]
    refine ⟨?_, by rw [ht]; exact h.2.1, by rw [ht]; exact h.2.2⟩
    intro e he
    rw [ht] at he
    obtain ⟨a, b, c⟩ := h.1 e he
    refine ⟨a, by rw [hn]; exact b, ?_⟩
    rw [load_Update r now id input hp]
    by_cases hq : p = e.2
    · rw [if_pos hq]
      cases hl : r.load e.2 with
      | none => simp [hl] at c
      | some t => simp [hl, applyUpdate_ID] at c ⊢; exact c
    · rw [if_neg hq]; exact c

theorem WF_Delete {r : TodoRepository} (id : Int) (h : WF r) : WF (r.Delete id).1 := by
  cases hp : mapGet r.todos id with
  | none => simpa [TodoRepository.Delete, hp] using h
  | some p =>
    have ht : (r.Delete id).1.todos = r.todos.filter fun e => decide (e.1 ≠ id) := by
      simp [TodoRepository.Delete, hp, mapDel_eq_filter]
    have hs : (r.Delete id).1.todos.Sublist r.todos := by
      rw [ht]; exact List.filter_sublist _
    refine ⟨?_, (hs.map Prod.fst).nodup h.2.1, (hs.map Prod.snd).nodup h.2.2⟩
    intro e he
    have := h.1 e (hs.subset he)
    simpa [TodoRepository.Delete, hp, TodoRepository.load] using this

theorem nextID_Create {r : TodoRepository} (now : Time) (input : CreateTodoInput)
    (h1 : 1 ≤ r.nextID) (h2 : r.nextID < maxInt) :
    (r.Create now input).1.nextID = r.nextID + 1 := by
  simp only [TodoRepository.Create]
  unfold maxInt at h2
  exact wrapInt_eq (by omega) (by omega)

theorem nextID_Update (r : TodoRepository) (now : Time) (id : Int) (input : UpdateTodoInput) :
    (r.Update now id input).1.nextID = r.nextID := by
  unfold TodoRepository.Update
  cases mapGet r.todos id <;> rfl

theorem nextID_Delete (r : TodoRepository) (id : Int) :
    (r.Delete id).1.nextID = r.nextID := by
  unfold TodoRepository.Delete
  cases mapGet r.todos id <;> rfl

theorem countCreates_append (xs ys : List Op) :
    countCreates (xs ++ ys) = countCreates xs + countCreates ys := by
  induction xs with
  | nil => simp [countCreates]
  | cons op xs ih => cases op <;> simp [countCreates, ih]; omega

/-- The invariant of a run from a well-formed state: the state stays
well-formed, the counter advances by one per `Create`, and the `Create` calls
return the counter values in order. -/
theorem run_invariant (ops : List Op) : ∀ r : TodoRepository, WF r → 1 ≤ r.nextID →
    r.nextID + countCreates ops ≤ maxInt →
    WF (run r ops) ∧ (run r ops).nextID = r.nextID + countCreates ops ∧
    createdIDs r ops =
      (List.range (countCreates ops)).map fun (i : Nat) => some (r.nextID + (i : Int)) := by
  induction ops with
  | nil =>
    intro r h _ _
    simp [run, countCreates, createdIDs, h]
  | cons op ops ih =>
    intro r h h1 h2
    cases op with
    | create now input =>
      simp only [countCreates, Nat.cast_add, Nat.cast_one] at h2 ⊢
      have hlt : r.nextID < maxInt := by omega
      have hn := nextID_Create now input h1 hlt
      obtain ⟨a, b, c⟩ := ih (r.Create now input).1 (WF_Create now input h h1 hlt)
        (by rw [hn]; omega) (by rw [hn]; omega)
      refine ⟨a, by rw [run, step, b, hn]; omega, ?_⟩
      have hhead : (match (r.Create now input).2 with
          | .ok p => ((r.Create now input).1.load p).map (·.ID)
          | .error _ => none) = some r.nextID := by
        have hl := load_Create_new r now input
        simp only [TodoRepository.Create] at hl ⊢
        rw [hl]; rfl
      rw [createdIDs, hhead, c, hn, List.range_succ_eq_map]
      simp only [List.map_cons, List.map_map, Nat.cast_zero, add_zero, List.cons.injEq, true_and]
      apply List.map_congr_left
      intro i _
      simp only [Function.comp, Nat.succ_eq_add_one, Nat.cast_add, Nat.cast_one]
      congr 1
      omega
    | update now id input =>
      have hn := nextID_Update r now id input
      obtain ⟨a, b, c⟩ := ih (r.Update now id input).1 (WF_Update now id input h)
        (by rw [hn]; exact h1) (by rw [hn]; simpa [countCreates] using h2)
      exact ⟨a, by rw [run, step, b, hn]; simp [countCreates],
        by rw [createdIDs, c, hn]; simp [countCreates]⟩
    | delete id =>
      have hn := nextID_Delete r id
      obtain ⟨a, b, c⟩ := ih (r.Delete id).1 (WF_Delete id h)
        (by rw [hn]; exact h1) (by rw [hn]; simpa [countCreates] using h2)
      exact ⟨a, by rw [run, step, b, hn]; simp [countCreates],
        by rw [createdIDs, c, hn]; simp [countCreates]⟩

/-! ## Repository.Create -/

/-- C1: from every repository state whose id counter is positive, with every
input, `Create` succeeds; the record it returns has id > 0, the title,
description and completed flag of the input, and createdAt equal to
updatedAt; `GetByID` with that id on the resulting state succeeds and its
record equals the one `Create` returned. -/
theorem Create_contract (r : TodoRepository) (now : Time) (input : CreateTodoInput)
    (hid : 0 < r.nextID) :
    ∃ p t, (r.Create now input).2 = .ok p ∧ (r.Create now input).1.load p = some t ∧
      0 < t.ID ∧ t.Title = input.Title ∧ t.Description = input.Description ∧
      t.Completed = input.Completed ∧ t.CreatedAt = t.UpdatedAt ∧
      ∃ q, (r.Create now input).1.GetByID t.ID = .ok q ∧
        (r.Create now input).1.load q = some t := by
  refine ⟨r.heap.length, _, rfl, load_Create_new r now input, hid, rfl, rfl, rfl, rfl,
    r.heap.length, ?_, load_Create_new r now input⟩
  simp [TodoRepository.GetByID, TodoRepository.Create, mapGet_mapSet_self]

theorem Create_contract_witness :
    0 < NewTodoRepository.nextID ∧
    ∃ p t, (NewTodoRepository.Create 5 ⟨"Test Task", "Test Description", false⟩).2 = .ok p ∧
      (NewTodoRepository.Create 5 ⟨"Test Task", "Test Description", false⟩).1.load p = some t ∧
      0 < t.ID ∧ t.Title = "Test Task" ∧ t.Description = "Test Description" ∧
      t.Completed = false ∧ t.CreatedAt = t.UpdatedAt ∧
      ∃ q, (NewTodoRepository.Create 5 ⟨"Test Task", "Test Description", false⟩).1.GetByID t.ID
          = .ok q ∧
        (NewTodoRepository.Create 5 ⟨"Test Task", "Test Description", false⟩).1.load q = some t :=
  ⟨by decide, Create_contract NewTodoRepository 5 ⟨"Test Task", "Test Description", false⟩
    (by decide)⟩

/-! ## Identifier allocation -/

/-- C2: in a run of `Create`, `Update` and `Delete` calls from
`NewTodoRepository` with fewer than 2^63 - 1 `Create` calls, the k-th `Create`
returns id k (so the ids start at 1, increase strictly, are pairwise distinct
and none is issued a second time, whatever was deleted in between); and after
every prefix of the run each binding of the map points at a record whose id
is the binding's key, with 1 <= key < nextID. -/
theorem ids_sequential (ops : List Op) (h : (countCreates ops : Int) < maxInt) :
    createdIDs NewTodoRepository ops =
      (List.range (countCreates ops)).map (fun (i : Nat) => some ((i : Int) + 1)) ∧
    (createdIDs NewTodoRepository ops).Pairwise
      (fun a b => ∃ x y : Int, a = some x ∧ b = some y ∧ x < y) ∧
    ∀ pre, pre <+: ops → ∀ k p, mapGet (run NewTodoRepository pre).todos k = some p →
      1 ≤ k ∧ k < (run NewTodoRepository pre).nextID ∧
      ((run NewTodoRepository pre).load p).map (·.ID) = some k := by
  have hN : NewTodoRepository.nextID = 1 := rfl
  have hc : createdIDs NewTodoRepository ops =
      (List.range (countCreates ops)).map (fun (i : Nat) => some ((i : Int) + 1)) := by
    rw [(run_invariant ops NewTodoRepository WF_New (by decide) (by rw [hN]; omega)).2.2, hN]
    apply List.map_congr_left
    intro i _
    congr 1
    omega
  refine ⟨hc, ?_, ?_⟩
  · rw [hc, List.pairwise_map]
    refine (List.pairwise_lt_range _).imp ?_
    intro a b hab
    exact ⟨a + 1, b + 1, rfl, rfl, by omega⟩
  · intro pre hpre k p hk
    obtain ⟨suf, rfl⟩ := hpre
    rw [countCreates_append] at h
    have hw := (run_invariant pre NewTodoRepository WF_New (by decide)
      (by rw [hN]; push_cast at h; omega)).1
    exact hw.1 (k, p) (mem_of_mapGet hk)

theorem ids_sequential_witness :
    ((countCreates sampleOps : Nat) : Int) < maxInt ∧
    createdIDs NewTodoRepository sampleOps = [some 1, some 2, some 3] ∧
    (createdIDs NewTodoRepository sampleOps).Pairwise
      (fun a b => ∃ x y : Int, a = some x ∧ b = some y ∧ x < y) ∧
    ∀ pre, pre <+: sampleOps → ∀ k p, mapGet (run NewTodoRepository pre).todos k = some p →
      1 ≤ k ∧ k < (run NewTodoRepository pre).nextID ∧
      ((run NewTodoRepository pre).load p).map (·.ID) = some k :=
  ⟨by decide, ids_sequential sampleOps (by decide)⟩

/-! ## Aliasing of returned records -/

/-- C3, the code on a fresh repository: `Create` returns the very pointer it
put in the map (pointer 0) and `GetByID 1` returns it again. A caller that
assigns a new title through it changes the record `GetByID 1` reads
afterwards, and an `Update` of id 1 changes the record behind the pointer
handed out earlier. -/
theorem returned_pointer_aliases_store :
    (NewTodoRepository.Create 10 sampleInput).2 = .ok 0 ∧
    sampleRepo.GetByID 1 = .ok 0 ∧
    (sampleRepo.load 0).map (·.Title) = some "Test Task" ∧
    (sampleRepo.callerWrite 0 fun t => { t with Title := "changed" }).GetByID 1 = .ok 0 ∧
    ((sampleRepo.callerWrite 0 fun t => { t with Title := "changed" }).load 0).map (·.Title)
      = some "changed" ∧
    (sampleRepo.Update 11 1 ⟨some "Updated Title", none, none⟩).2 = .ok 0 ∧
    ((sampleRepo.Update 11 1 ⟨some "Updated Title", none, none⟩).1.load 0).map (·.Title)
      = some "Updated Title" :=
  ⟨rfl, rfl, by decide, rfl, by decide, rfl, by decide⟩

/-! ## Repository.Update and Repository.Delete -/

theorem applyUpdate_eq (now : Time) (input : UpdateTodoInput) (t : Todo) :
    TodoRepository.applyUpdate now input t =
      { ID := t.ID
        Title := input.Title.getD t.Title
        Description := input.Description.getD t.Description
        Completed := input.Completed.getD t.Completed
        CreatedAt := t.CreatedAt
        UpdatedAt := now } := by
  unfold TodoRepository.applyUpdate
  cases input.Title <;> cases input.Description <;> cases input.Completed <;> rfl

theorem GetByID_absent (r : TodoRepository) (id : Int) (h : mapGet r.todos id = none) :
    r.GetByID id = .error .ErrTodoNotFound := by
  unfold TodoRepository.GetByID
  rw [h]

theorem Update_absent (r : TodoRepository) (now : Time) (id : Int) (input : UpdateTodoInput)
    (h : mapGet r.todos id = none) :
    r.Update now id input = (r, .error .ErrTodoNotFound) := by
  unfold TodoRepository.Update
  rw [h]

theorem Delete_absent (r : TodoRepository) (id : Int) (h : mapGet r.todos id = none) :
    r.Delete id = (r, some .ErrTodoNotFound) := by
  unfold TodoRepository.Delete
  rw [h]

/-- C4: in a well-formed repository, for every stored id (bound to pointer p)
and every input, `Update` succeeds and returns p; the record behind p gets the
supplied title, description and completed flag where the field is present and
keeps its own where it is absent, its id and createdAt are kept and updatedAt
is the clock reading; the map and the id counter are the same and the record
of every other id is the same. -/
theorem Update_frame (r : TodoRepository) (now : Time) (id : Int) (input : UpdateTodoInput)
    (p : Ptr) (hwf : WF r) (hp : mapGet r.todos id = some p) :
    (r.Update now id input).2 = .ok p ∧
    (∃ t, r.load p = some t ∧
      (r.Update now id input).1.load p = some
        { ID := t.ID
          Title := input.Title.getD t.Title
          Description := input.Description.getD t.Description
          Completed := input.Completed.getD t.Completed
          CreatedAt := t.CreatedAt
          UpdatedAt := now }) ∧
    (r.Update now id input).1.todos = r.todos ∧
    (r.Update now id input).1.nextID = r.nextID ∧
    ∀ k q, k ≠ id → mapGet r.todos k = some q →
      (r.Update now id input).1.load q = r.load q := by
  have hmem := mem_of_mapGet hp
  refine ⟨by simp [TodoRepository.Update, hp], ?_, by simp [TodoRepository.Update, hp],
    nextID_Update r now id input, ?_⟩
  · have c := (hwf.1 (id, p) hmem).2.2
    cases hl : r.load p with
    | none => simp [hl] at c
    | some t =>
      refine ⟨t, rfl, ?_⟩
      rw [load_Update r now id input hp, if_pos rfl, hl, Option.map_some', applyUpdate_eq]
  · intro k q hk hq
    rw [load_Update r now id input hp, if_neg]
    intro hpq
    subst hpq
    have h1 := mapGet_of_mem hwf.2.1 (mem_of_mapGet hq)
    have hinj : k = id := by
      have hnd := hwf.2.2
      have hm1 := mem_of_mapGet hq
      have hm2 := hmem
      by_contra hne
      have : (k, p) ≠ (id, p) := fun h => hne (congrArg Prod.fst h)
      exact absurd (List.inj_on_of_nodup_map hnd hm1 hm2 rfl) this
    exact hk hinj

theorem Update_frame_witness :
    WF sampleRepo ∧ mapGet sampleRepo.todos 1 = some 0 ∧
    ((sampleRepo.Update 11 1 ⟨some "Updated Title", none, some true⟩).2 = .ok 0 ∧
    (∃ t, sampleRepo.load 0 = some t ∧
      (sampleRepo.Update 11 1 ⟨some "Updated Title", none, some true⟩).1.load 0 = some
        { ID := t.ID
          Title := (some "Updated Title").getD t.Title
          Description := (none : Option String).getD t.Description
          Completed := (some true).getD t.Completed
          CreatedAt := t.CreatedAt
          UpdatedAt := 11 }) ∧
    (sampleRepo.Update 11 1 ⟨some "Updated Title", none, some true⟩).1.todos
      = sampleRepo.todos ∧
    (sampleRepo.Update 11 1 ⟨some "Updated Title", none, some true⟩).1.nextID
      = sampleRepo.nextID ∧
    ∀ k q, k ≠ 1 → mapGet sampleRepo.todos k = some q →
      (sampleRepo.Update 11 1 ⟨some "Updated Title", none, some true⟩).1.load q
        = sampleRepo.load q) :=
  ⟨by decide, rfl,
    Update_frame sampleRepo 11 1 ⟨some "Updated Title", none, some true⟩ 0 (by decide) rfl⟩

/-- C5: `Update` with the three fields absent on a stored id (bound to p, whose
record is t) succeeds, and the record behind p is t with updatedAt replaced by
the clock reading, so title, description and completed are as before; the
service's `Update` does the same for id > 0; and when the clock reading is not
before the prior updatedAt, the new updatedAt is not before it either. -/
theorem Update_no_fields (r : TodoRepository) (now : Time) (id : Int) (p : Ptr) (t : Todo)
    (hp : mapGet r.todos id = some p) (ht : r.load p = some t) :
    (r.Update now id ⟨none, none, none⟩).2 = .ok p ∧
    (r.Update now id ⟨none, none, none⟩).1.load p = some { t with UpdatedAt := now } ∧
    (0 < id → TodoService.Update r now id ⟨none, none, none⟩
      = r.Update now id ⟨none, none, none⟩) ∧
    (t.UpdatedAt ≤ now → ∀ u, (r.Update now id ⟨none, none, none⟩).1.load p = some u →
      t.UpdatedAt ≤ u.UpdatedAt ∧ u.Title = t.Title ∧ u.Description = t.Description ∧
      u.Completed = t.Completed) := by
  have hl : (r.Update now id ⟨none, none, none⟩).1.load p = some { t with UpdatedAt := now } := by
    rw [load_Update r now id _ hp, if_pos rfl, ht]
    rfl
  refine ⟨by simp [TodoRepository.Update, hp], hl, ?_, ?_⟩
  · intro hid
    have : ¬ id ≤ 0 := by omega
    simp [TodoService.Update, validateID, this, validateUpdateInput]
  · intro hclock u hu
    rw [hl] at hu
    cases hu
    exact ⟨hclock, rfl, rfl, rfl⟩

theorem Update_no_fields_witness :
    mapGet sampleRepo.todos 1 = some 0 ∧
    sampleRepo.load 0 = some ⟨1, "Test Task", "Test Description", false, 10, 10⟩ ∧
    (sampleRepo.Update 11 1 ⟨none, none, none⟩).2 = .ok 0 ∧
    (sampleRepo.Update 11 1 ⟨none, none, none⟩).1.load 0
      = some ⟨1, "Test Task", "Test Description", false, 10, 11⟩ :=
  ⟨rfl, rfl,
    (Update_no_fields sampleRepo 11 1 0 ⟨1, "Test Task", "Test Description", false, 10, 10⟩
      rfl rfl).1,
    (Update_no_fields sampleRepo 11 1 0 ⟨1, "Test Task", "Test Description", false, 10, 10⟩
      rfl rfl).2.1⟩

/-- C6: for every id bound in the map, `Delete` succeeds; afterwards the id is
unbound, every other id is bound as before (the map is the old one without
the bindings of this id), the heap and the id counter are the same, `GetByID`
on the id answers `ErrTodoNotFound`, and a second `Delete` of it answers
`ErrTodoNotFound` and changes nothing. -/
theorem Delete_contract (r : TodoRepository) (id : Int) (p : Ptr)
    (hp : mapGet r.todos id = some p) :
    (r.Delete id).2 = none ∧
    mapGet (r.Delete id).1.todos id = none ∧
    (∀ k, k ≠ id → mapGet (r.Delete id).1.todos k = mapGet r.todos k) ∧
    (r.Delete id).1.todos = r.todos.filter (fun e => decide (e.1 ≠ id)) ∧
    (r.Delete id).1.heap = r.heap ∧
    (r.Delete id).1.nextID = r.nextID ∧
    (r.Delete id).1.GetByID id = .error .ErrTodoNotFound ∧
    (r.Delete id).1.Delete id = ((r.Delete id).1, some .ErrTodoNotFound) := by
  have ht : (r.Delete id).1.todos = mapDel r.todos id := by
    simp [TodoRepository.Delete, hp]
  have hn : mapGet (r.Delete id).1.todos id = none := by
    rw [ht]; exact mapGet_mapDel_self _ _
  refine ⟨by simp [TodoRepository.Delete, hp], hn, ?_, by rw [ht, mapDel_eq_filter],
    by simp [TodoRepository.Delete, hp], nextID_Delete r id, ?_, ?_⟩
  · intro k hk
    rw [ht]; exact mapGet_mapDel_ne _ hk
  · exact GetByID_absent _ _ hn
  · exact Delete_absent _ _ hn

theorem Delete_contract_witness :
    mapGet sampleRepo.todos 1 = some 0 ∧
    (sampleRepo.Delete 1).2 = none ∧
    mapGet (sampleRepo.Delete 1).1.todos 1 = none ∧
    (sampleRepo.Delete 1).1.GetByID 1 = .error .ErrTodoNotFound :=
  ⟨rfl, (Delete_contract sampleRepo 1 0 rfl).1, (Delete_contract sampleRepo 1 0 rfl).2.1,
    (Delete_contract sampleRepo 1 0 rfl).2.2.2.2.2.2.1⟩

/-! ## Service: absent ids -/

/-- C7: for every id > 0 that is not bound in the map, `GetByID`, `Update`
(with an input that passes `validateUpdateInput`) and `Delete` of the service
answer `ErrTodoNotFound`, the repository's own answer, and hand back the
repository state they were given. -/
theorem Service_NotFound (r : TodoRepository) (now : Time) (id : Int) (input : UpdateTodoInput)
    (hid : 0 < id) (habs : mapGet r.todos id = none) (hv : validateUpdateInput input = none) :
    TodoService.GetByID r id = .error .ErrTodoNotFound ∧
    TodoService.GetByID r id = r.GetByID id ∧
    TodoService.Update r now id input = (r, .error .ErrTodoNotFound) ∧
    TodoService.Delete r id = (r, some .ErrTodoNotFound) ∧
    TodoService.Delete r id = r.Delete id := by
  have hv0 : validateID id = none := by
    have : ¬ id ≤ 0 := by omega
    simp [validateID, this]
  refine ⟨?_, ?_, ?_, ?_, ?_⟩
  · simp only [TodoService.GetByID, hv0, GetByID_absent r id habs]
  · simp only [TodoService.GetByID, hv0]
  · simp only [TodoService.Update, hv0, hv]
    exact Update_absent r now id _ habs
  · simp only [TodoService.Delete, hv0, Delete_absent r id habs]
  · simp only [TodoService.Delete, hv0]

theorem Service_NotFound_witness :
    (0 : Int) < 999 ∧ mapGet NewTodoRepository.todos 999 = none ∧
    validateUpdateInput ⟨none, some "desc", some true⟩ = none ∧
    TodoService.GetByID NewTodoRepository 999 = .error .ErrTodoNotFound ∧
    TodoService.GetByID NewTodoRepository 999 = NewTodoRepository.GetByID 999 ∧
    TodoService.Update NewTodoRepository 7 999 ⟨none, some "desc", some true⟩
      = (NewTodoRepository, .error .ErrTodoNotFound) ∧
    TodoService.Delete NewTodoRepository 999 = (NewTodoRepository, some .ErrTodoNotFound) ∧
    TodoService.Delete NewTodoRepository 999 = NewTodoRepository.Delete 999 :=
  ⟨by decide, rfl, by decide,
    Service_NotFound NewTodoRepository 7 999 ⟨none, some "desc", some true⟩ (by decide) rfl
      (by decide)⟩

/-! ## Trimming and length -/

theorem trim_dropWhile_self (l : List Char) :
    (((l.dropWhile isSpace).rdropWhile isSpace).dropWhile isSpace)
      = (l.dropWhile isSpace).rdropWhile isSpace := by
  rw [List.dropWhile_eq_self_iff]
  intro hl
  have hpre : (l.dropWhile isSpace).rdropWhile isSpace <+: l.dropWhile isSpace :=
    List.rdropWhile_prefix isSpace _
  have hlen : 0 < (l.dropWhile isSpace).length := lt_of_lt_of_le hl hpre.length_le
  have h0 := List.dropWhile_get_zero_not isSpace l hlen
  have heq : ((l.dropWhile isSpace).rdropWhile isSpace).get ⟨0, hl⟩
      = (l.dropWhile isSpace).get ⟨0, hlen⟩ := by
    simp only [List.get_eq_getElem]
    exact hpre.getElem hl
  rw [heq]
  exact h0

theorem TrimSpace_idem (s : String) : TrimSpace (TrimSpace s) = TrimSpace s := by
  unfold TrimSpace
  simp only [trim_dropWhile_self, List.rdropWhile_idempotent]

theorem TrimSpace_blank (s : String) (h : ∀ c ∈ s.data, isSpace c = true) :
    TrimSpace s = "" := by
  unfold TrimSpace
  have h1 : s.data.dropWhile isSpace = [] := List.dropWhile_eq_nil_iff.2 h
  rw [h1]
  rfl

theorem length_le_utf8Len (l : List Char) : l.length ≤ String.utf8Len l := by
  induction l with
  | nil => simp
  | cons c l ih =>
    have := Char.utf8Size_pos c
    simp only [List.length_cons, String.utf8Len_cons]
    omega

theorem length_le_len (s : String) : s.length ≤ len s := by
  unfold len
  cases s with
  | mk l => exact length_le_utf8Len l

theorem validateTitle_TrimSpace (s : String) : validateTitle (TrimSpace s) = validateTitle s := by
  unfold validateTitle
  rw [TrimSpace_idem]

/-! ## Service.Create and the title rules -/

/-- The decision chain of `Create` of the service on the trimmed fields. -/
theorem Service_Create_eq (r : TodoRepository) (now : Time) (input : CreateTodoInput) :
    TodoService.Create r now input =
      (if TrimSpace input.Title = "" then (r, .error .ErrTitleRequired)
       else if len (TrimSpace input.Title) > 255 then (r, .error .ErrTitleTooLong)
       else if len (TrimSpace input.Description) > 1000 then
         (r, .error .ErrDescriptionTooLong)
       else r.Create now ⟨TrimSpace input.Title, TrimSpace input.Description,
         input.Completed⟩) := by
  simp only [TodoService.Create, validateCreateInput, validateTitle_TrimSpace]
  simp only [validateTitle, validateDescription, MaxTitleLength, MaxDescriptionLength]
  by_cases h1 : TrimSpace input.Title = ""
  · simp [h1]
  · by_cases h2 : len (TrimSpace input.Title) > 255
    · simp [h1, h2]
    · by_cases h3 : len (TrimSpace input.Description) > 1000
      · simp [h1, h2, h3]
      · simp [h1, h2, h3]

/-- C8: `Create` of the service, with t and d the trimmed title and
description, answers `ErrTitleRequired` and the unchanged state if t is empty,
else `ErrTitleTooLong` and the unchanged state if `len t > 255`, else
`ErrDescriptionTooLong` and the unchanged state if `len d > 1000`, and else
is the repository's `Create` of (t, d, completed), which succeeds and whose
returned record, stored under the id `nextID`, has title t, description d and
the completed flag of the input. -/
theorem Service_Create_spec (r : TodoRepository) (now : Time) (input : CreateTodoInput) :
    TodoService.Create r now input =
      (if TrimSpace input.Title = "" then (r, .error .ErrTitleRequired)
       else if len (TrimSpace input.Title) > 255 then (r, .error .ErrTitleTooLong)
       else if len (TrimSpace input.Description) > 1000 then
         (r, .error .ErrDescriptionTooLong)
       else r.Create now ⟨TrimSpace input.Title, TrimSpace input.Description,
         input.Completed⟩) ∧
    (r.Create now ⟨TrimSpace input.Title, TrimSpace input.Description, input.Completed⟩).2
      = .ok r.heap.length ∧
    (r.Create now ⟨TrimSpace input.Title, TrimSpace input.Description, input.Completed⟩).1.load
        r.heap.length
      = some { ID := r.nextID, Title := TrimSpace input.Title,
               Description := TrimSpace input.Description, Completed := input.Completed,
               CreatedAt := now, UpdatedAt := now } ∧
    (r.Create now ⟨TrimSpace input.Title, TrimSpace input.Description,
        input.Completed⟩).1.GetByID r.nextID
      = .ok r.heap.length := by
  refine ⟨Service_Create_eq r now input, rfl, load_Create_new r now _, ?_⟩
  simp [TodoRepository.GetByID, TodoRepository.Create, mapGet_mapSet_self]

/-- C9: a title all of whose characters are white space (the empty title
included) is answered with `ErrTitleRequired` and the unchanged state by
`Create` of the service, whatever the description and flag, and by `Update`
of the service for every id > 0, bound or not, whatever the other two
fields. -/
theorem blank_title_rejected (r : TodoRepository) (now : Time) (id : Int) (title desc : String)
    (completed : Bool) (udesc : Option String) (ucompleted : Option Bool)
    (hblank : ∀ c ∈ title.data, isSpace c = true) (hid : 0 < id) :
    TodoService.Create r now ⟨title, desc, completed⟩ = (r, .error .ErrTitleRequired) ∧
    TodoService.Update r now id ⟨some title, udesc, ucompleted⟩
      = (r, .error .ErrTitleRequired) := by
  have ht := TrimSpace_blank title hblank
  have hv : validateTitle title = some .ErrTitleRequired := by
    simp [validateTitle, ht]
  constructor
  · rw [Service_Create_eq r now ⟨title, desc, completed⟩]
    simp [ht]
  · have hid0 : ¬ id ≤ 0 := by omega
    simp [TodoService.Update, validateID, hid0, validateUpdateInput, hv]

theorem blank_title_rejected_witness :
    (∀ c ∈ ("   " : String).data, isSpace c = true) ∧ (0 : Int) < 1 ∧
    TodoService.Create NewTodoRepository 3 ⟨"   ", "desc", false⟩
      = (NewTodoRepository, .error .ErrTitleRequired) ∧
    TodoService.Update NewTodoRepository 3 1 ⟨some "   ", none, none⟩
      = (NewTodoRepository, .error .ErrTitleRequired) :=
  ⟨by decide, by decide,
    blank_title_rejected NewTodoRepository 3 1 "   " "desc" false none none (by decide)
      (by decide)⟩

set_option maxRecDepth 100000

/-- C10, as stated, fails: the title of 255 two-byte characters has a trimmed
form of exactly 255 characters, yet `Create` of the service answers
`ErrTitleTooLong`, because `len` counts its 510 bytes. -/
theorem title_255_chars_rejected :
    (TrimSpace title255TwoByte).length = 255 ∧
    len (TrimSpace title255TwoByte) = 510 ∧
    TodoService.Create NewTodoRepository 0 ⟨title255TwoByte, "", false⟩
      = (NewTodoRepository, .error .ErrTitleTooLong) := by
  have h1 : TrimSpace title255TwoByte = title255TwoByte := by decide
  have h2 : len title255TwoByte = 510 := by decide
  have h3 : title255TwoByte ≠ "" := by decide
  refine ⟨by rw [h1]; decide, by rw [h1, h2], ?_⟩
  rw [Service_Create_eq NewTodoRepository 0 ⟨title255TwoByte, "", false⟩]
  simp [h1, h2, h3]

/-- C10, amended: a title whose trimmed form has more than 255 characters is
answered with `ErrTitleTooLong` by `Create` of the service, whatever the
description, and by `Update` of the service with that title present and
id > 0; a title whose trimmed form is exactly 255 bytes long passes
`validateTitle`, and `Create` with it and a description of at most 1000 bytes
after trimming succeeds. -/
theorem title_length_limit (r : TodoRepository) (now : Time) (id : Int)
    (long ok d1 desc : String) (completed : Bool) (udesc : Option String)
    (ucompleted : Option Bool)
    (hlong : 255 < (TrimSpace long).length) (hok : len (TrimSpace ok) = 255)
    (hdesc : len (TrimSpace desc) ≤ 1000) (hid : 0 < id) :
    TodoService.Create r now ⟨long, d1, completed⟩ = (r, .error .ErrTitleTooLong) ∧
    TodoService.Update r now id ⟨some long, udesc, ucompleted⟩
      = (r, .error .ErrTitleTooLong) ∧
    validateTitle ok = none ∧
    TodoService.Create r now ⟨ok, desc, completed⟩
      = r.Create now ⟨TrimSpace ok, TrimSpace desc, completed⟩ ∧
    (TodoService.Create r now ⟨ok, desc, completed⟩).2 = .ok r.heap.length := by
  have hl : len (TrimSpace long) > 255 := lt_of_lt_of_le hlong (length_le_len _)
  have hne : TrimSpace long ≠ "" := by
    intro h
    rw [h] at hlong
    simp at hlong
  have hv : validateTitle long = some .ErrTitleTooLong := by
    simp [validateTitle, hne, hl, MaxTitleLength]
  have hok1 : TrimSpace ok ≠ "" := by
    intro h
    rw [h] at hok
    exact absurd hok (by decide)
  have hok2 : ¬ len (TrimSpace ok) > 255 := by omega
  have hd : ¬ len (TrimSpace desc) > 1000 := by omega
  have hc : TodoService.Create r now ⟨ok, desc, completed⟩
      = r.Create now ⟨TrimSpace ok, TrimSpace desc, completed⟩ := by
    rw [Service_Create_eq r now ⟨ok, desc, completed⟩]
    simp [hok1, hok2, hd]
  refine ⟨?_, ?_, ?_, hc, by rw [hc]; rfl⟩
  · rw [Service_Create_eq r now ⟨long, d1, completed⟩]
    simp [hne, hl]
  · have hid0 : ¬ id ≤ 0 := by omega
    simp [TodoService.Update, validateID, hid0, validateUpdateInput, hv]
  · simp [validateTitle, hok1, hok2, MaxTitleLength]

theorem title_length_limit_witness :
    255 < (TrimSpace title256).length ∧ len (TrimSpace title255) = 255 ∧
    len (TrimSpace "desc") ≤ 1000 ∧ (0 : Int) < 1 ∧
    TodoService.Create NewTodoRepository 0 ⟨title256, "", false⟩
      = (NewTodoRepository, .error .ErrTitleTooLong) ∧
    TodoService.Update NewTodoRepository 0 1 ⟨some title256, none, none⟩
      = (NewTodoRepository, .error .ErrTitleTooLong) ∧
    validateTitle title255 = none ∧
    TodoService.Create NewTodoRepository 0 ⟨title255, "desc", false⟩
      = NewTodoRepository.Create 0 ⟨TrimSpace title255, TrimSpace "desc", false⟩ ∧
    (TodoService.Create NewTodoRepository 0 ⟨title255, "desc", false⟩).2
      = .ok NewTodoRepository.heap.length :=
  ⟨by decide, by decide, by decide, by decide,
    title_length_limit NewTodoRepository 0 1 title256 title255 "" "desc" false none none
      (by decide) (by decide) (by decide) (by decide)⟩

set_option maxRecDepth 512

/-! ## Service: invalid ids -/

/-- C11: for every id <= 0 and every input, valid or not, `GetByID`, `Update`
and `Delete` of the service answer `ErrInvalidID` and hand back the state
they were given; the repository is not consulted, whether the id is bound or
not. -/
theorem Service_InvalidID (r : TodoRepository) (now : Time) (id : Int)
    (input : UpdateTodoInput) (hid : id ≤ 0) :
    TodoService.GetByID r id = .error .ErrInvalidID ∧
    TodoService.Update r now id input = (r, .error .ErrInvalidID) ∧
    TodoService.Delete r id = (r, some .ErrInvalidID) := by
  simp [TodoService.GetByID, TodoService.Update, TodoService.Delete, validateID, hid]

theorem Service_InvalidID_witness :
    (-1 : Int) ≤ 0 ∧
    TodoService.GetByID sampleRepo (-1) = .error .ErrInvalidID ∧
    TodoService.Update sampleRepo 12 (-1) ⟨some "   ", some "desc", none⟩
      = (sampleRepo, .error .ErrInvalidID) ∧
    TodoService.Delete sampleRepo (-1) = (sampleRepo, some .ErrInvalidID) :=
  ⟨by decide,
    Service_InvalidID sampleRepo 12 (-1) ⟨some "   ", some "desc", none⟩ (by decide)⟩

/-! ## Reading all records -/

theorem elems_appendSlice (acc : TodoSlice) (t : Todo) :
    appendSlice acc t = some (elems acc ++ [t]) := by
  cases acc <;> rfl

/-- The slice a `range` loop over the map builds from `acc`: `acc` itself when
no iteration appends, and else the elements of `acc` followed by the records
that are not skipped. -/
theorem foldl_appendUnless (r : TodoRepository) (skip : Todo → Bool)
    (m : List (Int × Ptr)) : ∀ acc : TodoSlice,
    m.foldl (r.appendUnless skip) acc =
      match (m.filterMap fun e => r.load e.2).filter (fun t => !skip t) with
      | [] => acc
      | x :: xs => some (elems acc ++ x :: xs) := by
  induction m with
  | nil => intro acc; rfl
  | cons e m ih =>
    intro acc
    rw [List.foldl_cons, ih]
    cases hl : r.load e.2 with
    | none => simp [TodoRepository.appendUnless, hl]
    | some t =>
      by_cases hs : skip t = true
      · simp [TodoRepository.appendUnless, hl, hs]
      · have hs2 : skip t = false := by simpa using hs
        simp only [TodoRepository.appendUnless, hl, hs2, List.filterMap_cons, Bool.false_eq_true,
          if_false, List.filter_cons, Bool.not_false, if_true, elems_appendSlice]
        cases (List.filter (fun t => !skip t) (List.filterMap (fun e => r.load e.2) m)) with
        | nil => simp [elems]
        | cons x xs => simp [elems]

theorem GetAll_eq (r : TodoRepository) :
    r.GetAll = .ok (some (r.todos.filterMap fun e => r.load e.2)) := by
  unfold TodoRepository.GetAll
  rw [foldl_appendUnless]
  simp only [Bool.not_false, List.filter_true]
  cases (List.filterMap (fun e => r.load e.2) r.todos) <;> simp [elems]

theorem GetFiltered_eq (toLower : Char → Char) (r : TodoRepository) (completed : Option Bool)
    (search : String) :
    r.GetFiltered toLower completed search =
      .ok (match (r.todos.filterMap fun e => r.load e.2).filter
            (fun t => !TodoRepository.skipped toLower completed search t) with
        | [] => none
        | x :: xs => some (x :: xs)) := by
  unfold TodoRepository.GetFiltered
  rw [foldl_appendUnless]
  generalize (List.filter (fun t => !TodoRepository.skipped toLower completed search t)
    (List.filterMap (fun e => r.load e.2) r.todos)) = l
  cases l <;> simp [elems]

theorem stored_mem {r : TodoRepository} (hwf : WF r) (t : Todo) :
    (t ∈ r.todos.filterMap fun e => r.load e.2) ↔
      ∃ k p, mapGet r.todos k = some p ∧ r.load p = some t := by
  rw [List.mem_filterMap]
  constructor
  · rintro ⟨⟨k, p⟩, he, hl⟩
    exact ⟨k, p, mapGet_of_mem hwf.2.1 he, hl⟩
  · rintro ⟨k, p, hk, hl⟩
    exact ⟨(k, p), mem_of_mapGet hk, hl⟩

theorem stored_ids {r : TodoRepository} (hwf : WF r) :
    (r.todos.filterMap fun e => r.load e.2).map (·.ID) = r.todos.map Prod.fst := by
  have h : ∀ m : List (Int × Ptr), (∀ e ∈ m, (r.load e.2).map (·.ID) = some e.1) →
      (m.filterMap fun e => r.load e.2).map (·.ID) = m.map Prod.fst := by
    intro m
    induction m with
    | nil => intro _; rfl
    | cons e m ih =>
      intro hm
      have he := hm e (List.mem_cons_self _ _)
      have hrest := ih fun x hx => hm x (List.mem_cons_of_mem _ hx)
      cases hl : r.load e.2 with
      | none => simp [hl] at he
      | some t =>
        simp only [hl, Option.map_some', Option.some.injEq] at he
        simp [List.filterMap_cons, hl, he, hrest]
  exact h r.todos fun e he => (hwf.1 e he).2.2

theorem infix_map_iff (f : Char → Char) (l xs : List Char) :
    l <:+: xs.map f ↔ ∃ u, u <:+: xs ∧ u.map f = l := by
  constructor
  · rintro ⟨s, t, h⟩
    obtain ⟨a, b, hab, ha, _⟩ := List.map_eq_append_iff.1 h.symm
    obtain ⟨a1, a2, ha12, _, ha2⟩ := List.map_eq_append_iff.1 ha
    exact ⟨a2, ⟨a1, b, by rw [hab, ha12]⟩, ha2⟩
  · rintro ⟨u, hu, rfl⟩
    exact hu.map f

theorem skipped_eq_false (toLower : Char → Char) (completed : Option Bool) (search : String)
    (t : Todo) :
    TodoRepository.skipped toLower completed search t = false ↔
      (completed = none ∨ completed = some t.Completed) ∧
      (search = "" ∨
        (∃ u, u <:+: t.Title.data ∧ u.map toLower = search.data.map toLower) ∨
        (∃ u, u <:+: t.Description.data ∧ u.map toLower = search.data.map toLower)) := by
  have hc : (match completed with
      | some c => t.Completed != c
      | none => false) = false ↔ (completed = none ∨ completed = some t.Completed) := by
    cases completed with
    | none => simp
    | some c => cases c <;> cases t.Completed <;> simp
  have hT : ∀ text : String, Contains (ToLower toLower text) (ToLower toLower search) = true ↔
      ∃ u, u <:+: text.data ∧ u.map toLower = search.data.map toLower := by
    intro text
    simp only [Contains, ToLower, decide_eq_true_eq, infix_map_iff]
  unfold TodoRepository.skipped
  rw [Bool.or_eq_false_iff, hc, ← hT, ← hT]
  apply and_congr_right
  intro _
  by_cases hs : search = ""
  · simp [hs]
  · have hb : (search != "") = true := by simpa using hs
    rw [hb]
    cases Contains (ToLower toLower t.Title) (ToLower toLower search) <;>
      cases Contains (ToLower toLower t.Description) (ToLower toLower search) <;>
      simp [hs]

theorem elems_GetFiltered (toLower : Char → Char) (r : TodoRepository)
    (completed : Option Bool) (search : String) :
    ∃ s, r.GetFiltered toLower completed search = .ok s ∧
      elems s = (r.todos.filterMap fun e => r.load e.2).filter
        (fun t => !TodoRepository.skipped toLower completed search t) := by
  rw [GetFiltered_eq]
  generalize (List.filter (fun t => !TodoRepository.skipped toLower completed search t)
    (List.filterMap (fun e => r.load e.2) r.todos)) = l
  cases l with
  | nil => exact ⟨none, rfl, rfl⟩
  | cons x xs => exact ⟨some (x :: xs), rfl, rfl⟩

/-- C12: in a well-formed repository `GetFiltered` succeeds, and a record is
among the returned ones exactly when it is the record of a bound id, the
completed filter is absent or equals its completed flag, and the search text
is empty or equals, after mapping both with `toLower`, a contiguous part of
its title or of its description; the returned records have pairwise distinct
ids, so each stored record is returned once; with filter `true` and an empty
search the returned records are the stored ones whose completed flag is
`true`. The method returns no new repository state. -/
theorem GetFiltered_spec (toLower : Char → Char) (r : TodoRepository)
    (completed : Option Bool) (search : String) (hwf : WF r) :
    (∃ s, r.GetFiltered toLower completed search = .ok s ∧
      (∀ t, t ∈ elems s ↔
        (∃ k p, mapGet r.todos k = some p ∧ r.load p = some t) ∧
        (completed = none ∨ completed = some t.Completed) ∧
        (search = "" ∨
          (∃ u, u <:+: t.Title.data ∧ u.map toLower = search.data.map toLower) ∨
          (∃ u, u <:+: t.Description.data ∧ u.map toLower = search.data.map toLower))) ∧
      ((elems s).map (·.ID)).Nodup) ∧
    (∃ s, r.GetFiltered toLower (some true) "" = .ok s ∧
      ∀ t, t ∈ elems s ↔
        (∃ k p, mapGet r.todos k = some p ∧ r.load p = some t) ∧ t.Completed = true) := by
  have key : ∀ (c : Option Bool) (q : String), ∃ s, r.GetFiltered toLower c q = .ok s ∧
      (∀ t, t ∈ elems s ↔
        (∃ k p, mapGet r.todos k = some p ∧ r.load p = some t) ∧
        TodoRepository.skipped toLower c q t = false) ∧
      ((elems s).map (·.ID)).Nodup := by
    intro c q
    obtain ⟨s, hs, he⟩ := elems_GetFiltered toLower r c q
    refine ⟨s, hs, ?_, ?_⟩
    · intro t
      rw [he, List.mem_filter, stored_mem hwf]
      simp
    · rw [he]
      have hnd : ((r.todos.filterMap fun e => r.load e.2).map (·.ID)).Nodup := by
        rw [stored_ids hwf]; exact hwf.2.1
      exact ((List.filter_sublist _).map _).nodup hnd
  constructor
  · obtain ⟨s, hs, hm, hn⟩ := key completed search
    refine ⟨s, hs, ?_, hn⟩
    intro t
    rw [hm, skipped_eq_false]
  · obtain ⟨s, hs, hm, _⟩ := key (some true) ""
    refine ⟨s, hs, ?_⟩
    intro t
    rw [hm, skipped_eq_false]
    constructor
    · rintro ⟨h1, h2, _⟩
      refine ⟨h1, ?_⟩
      rcases h2 with h | h
      · cases h
      · exact (Option.some.inj h).symm
    · rintro ⟨h1, h2⟩
      exact ⟨h1, Or.inr (by rw [h2]), Or.inl rfl⟩

theorem GetFiltered_spec_witness :
    WF sampleStore ∧
    ∃ s, sampleStore.GetFiltered Char.toLower (some true) "TASK" = .ok s ∧
      ((elems s).map (·.ID)).Nodup :=
  ⟨by decide,
    (GetFiltered_spec Char.toLower sampleStore (some true) "TASK" (by decide)).1.elim
      fun s hs => ⟨s, hs.1, hs.2.2⟩⟩

/-- C13: `GetFiltered` of the service is `GetFiltered` of the repository on
the same filter and the same search text; the text is not trimmed: on the
sample repository the search "TASK" finds the record titled "Test Task" and
the search "TASK " with a trailing blank finds nothing. -/
theorem Service_GetFiltered_passthrough (toLower : Char → Char) (r : TodoRepository)
    (completed : Option Bool) (search : String) :
    TodoService.GetFiltered toLower r completed search
      = r.GetFiltered toLower completed search ∧
    TodoService.GetFiltered Char.toLower sampleRepo none "TASK"
      = .ok (some [⟨1, "Test Task", "Test Description", false, 10, 10⟩]) ∧
    TodoService.GetFiltered Char.toLower sampleRepo none "TASK " = .ok none := by
  refine ⟨rfl, ?_, ?_⟩
  · rw [TodoService.GetFiltered, GetFiltered_eq]
    exact congrArg Except.ok (by decide)
  · rw [TodoService.GetFiltered, GetFiltered_eq]
    exact congrArg Except.ok (by decide)

theorem length_mapDel {m : List (Int × Ptr)} (hnd : (m.map Prod.fst).Nodup) {id : Int}
    {p : Ptr} (h : mapGet m id = some p) : (mapDel m id).length + 1 = m.length := by
  induction m with
  | nil => simp [mapGet] at h
  | cons e m ih =>
    obtain ⟨k, v⟩ := e
    simp only [List.map_cons, List.nodup_cons] at hnd
    by_cases hk : k = id
    · have hno : ∀ x ∈ m, x.1 ≠ id := by
        intro x hx hxe
        apply hnd.1
        rw [hk, ← hxe]
        exact List.mem_map_of_mem Prod.fst hx
      simp [mapDel, hk, mapDel_of_not_mem hno]
    · simp only [mapGet, if_neg hk] at h
      simp [mapDel, hk, ih hnd.2 h]

/-- The number of bindings after a run: one more per `Create`, one less per
`Delete` that returned nil. -/
theorem run_length (ops : List Op) : ∀ r : TodoRepository, WF r → 1 ≤ r.nextID →
    r.nextID + countCreates ops ≤ maxInt →
    (run r ops).todos.length + countDeletes r ops = r.todos.length + countCreates ops := by
  induction ops with
  | nil => intro r _ _ _; simp [run, countDeletes, countCreates]
  | cons op ops ih =>
    intro r h h1 h2
    cases op with
    | create now input =>
      simp only [countCreates, Nat.cast_add, Nat.cast_one] at h2
      have hlt : r.nextID < maxInt := by omega
      have hn := nextID_Create now input h1 hlt
      have := ih (r.Create now input).1 (WF_Create now input h h1 hlt)
        (by rw [hn]; omega) (by rw [hn]; omega)
      rw [todos_Create now input h] at this
      simp only [run, step, countDeletes, countCreates, List.length_cons] at this ⊢
      omega
    | update now id input =>
      have hn := nextID_Update r now id input
      have := ih (r.Update now id input).1 (WF_Update now id input h)
        (by rw [hn]; exact h1) (by rw [hn]; simpa [countCreates] using h2)
      have ht : (r.Update now id input).1.todos = r.todos := by
        unfold TodoRepository.Update
        cases mapGet r.todos id <;> rfl
      rw [ht] at this
      simpa [run, step, countDeletes, countCreates] using this
    | delete id =>
      have hn := nextID_Delete r id
      have := ih (r.Delete id).1 (WF_Delete id h)
        (by rw [hn]; exact h1) (by rw [hn]; simpa [countCreates] using h2)
      simp only [run, step, countDeletes, countCreates] at this ⊢
      cases hp : mapGet r.todos id with
      | none =>
        rw [Delete_absent r id hp] at this ⊢
        simpa using this
      | some p =>
        have hl := length_mapDel h.2.1 hp
        have hd : r.Delete id = ({ r with todos := mapDel r.todos id }, none) := by
          simp [TodoRepository.Delete, hp]
        rw [hd] at this ⊢
        simp only [if_true] at this ⊢
        omega

theorem todosHandler_GetAll (toLower : Char → Char) (r : TodoRepository) (now : Time)
    (req : Request) (hm : req.Method = "GET") (hc : req.completed = "")
    (hs : req.search = "") :
    TodoHandler.todosHandler toLower r now req =
      (r, { status := StatusOK,
            body := .todos (some (r.todos.filterMap fun e => r.load e.2)) }) := by
  have hp : ¬ ("GET" : String) = "POST" := by decide
  simp [TodoHandler.todosHandler, hm, hp, hc, hs, TodoHandler.getAllTodos, TodoService.GetAll,
    GetAll_eq]

/-- C14: after a run from `NewTodoRepository` with fewer than 2^63 - 1
`Create` calls, `GetAll` of the repository, and of the service alike, returns
a slice that is not nil whose elements are exactly the records of the bound
ids, with pairwise distinct ids, so each once; their number plus the number
of `Delete` calls that returned nil is the number of `Create` calls; when no
id is bound the slice is empty and `GET /todos` without query values answers
200 with that empty slice, which is encoded as `[]`. -/
theorem GetAll_spec (ops : List Op) (toLower : Char → Char) (now : Time)
    (h : (countCreates ops : Int) < maxInt) :
    ∃ l, (run NewTodoRepository ops).GetAll = .ok (some l) ∧
      TodoService.GetAll (run NewTodoRepository ops) = .ok (some l) ∧
      (∀ t, t ∈ l ↔ ∃ k p, mapGet (run NewTodoRepository ops).todos k = some p ∧
        (run NewTodoRepository ops).load p = some t) ∧
      (l.map (·.ID)).Nodup ∧
      l.length + countDeletes NewTodoRepository ops = countCreates ops ∧
      ((run NewTodoRepository ops).todos = [] → l = [] ∧
        TodoHandler.todosHandler toLower (run NewTodoRepository ops) now (getTodos "" "")
          = (run NewTodoRepository ops, { status := 200, body := .todos (some []) })) ∧
      encodeEmpty (some []) = some "[]" := by
  have hN : NewTodoRepository.nextID = 1 := rfl
  have hb : NewTodoRepository.nextID + (countCreates ops : Int) ≤ maxInt := by
    rw [hN]; omega
  have hwf := (run_invariant ops NewTodoRepository WF_New (by decide) hb).1
  have hlen := run_length ops NewTodoRepository WF_New (by decide) hb
  have hids := stored_ids hwf
  refine ⟨_, GetAll_eq _, GetAll_eq _, stored_mem hwf, ?_, ?_, ?_, rfl⟩
  · rw [hids]; exact hwf.2.1
  · have h1 := congrArg List.length hids
    simp only [List.length_map] at h1
    rw [h1]
    simpa [NewTodoRepository] using hlen
  · intro he
    refine ⟨by rw [he]; rfl, ?_⟩
    rw [todosHandler_GetAll toLower _ now (getTodos "" "") rfl rfl rfl, he]
    rfl

theorem GetAll_spec_witness :
    ((countCreates sampleOps : Nat) : Int) < maxInt ∧
    ∃ l, sampleStore.GetAll = .ok (some l) ∧ (l.map (·.ID)).Nodup ∧
      l.length + countDeletes NewTodoRepository sampleOps = countCreates sampleOps :=
  ⟨by decide,
    (GetAll_spec sampleOps Char.toLower 0 (by decide)).elim
      fun l hl => ⟨l, hl.1, hl.2.2.2.1, hl.2.2.2.2.1⟩⟩

/-! ## Filtered reads through the handler -/

/-- C15, the code at the failing input: `GET /todos?completed=true` on the
empty repository, and `GET /todos?search=zzz` on a repository none of whose
records matches, are answered 200 with the nil slice, which is encoded as
`null`; the unfiltered `GET /todos` on the empty repository is answered with
the empty slice that is not nil, encoded as `[]`. -/
theorem filtered_empty_is_null :
    (TodoHandler.todosHandler Char.toLower NewTodoRepository 0 (getTodos "true" "")).2
      = { status := 200, body := .todos none } ∧
    (TodoHandler.todosHandler Char.toLower sampleStore 0 (getTodos "" "zzz")).2
      = { status := 200, body := .todos none } ∧
    encodeEmpty none = some "null" ∧
    (TodoHandler.todosHandler Char.toLower NewTodoRepository 0 (getTodos "" "")).2
      = { status := 200, body := .todos (some []) } ∧
    encodeEmpty (some []) = some "[]" := by
  refine ⟨?_, ?_, rfl, ?_, rfl⟩ <;> decide

/-! ## Identifier extraction -/

theorem digitVal_digitChar : ∀ d < 10, digitVal (digitChar d) = some d := by decide

theorem digitChar_not_sign : ∀ d < 10,
    digitChar d ≠ '+' ∧ digitChar d ≠ '-' ∧ digitChar d ≠ '/' := by decide

theorem digitChar_of_digitVal {c : Char} {d : Nat} (h : digitVal c = some d) :
    d < 10 ∧ c = digitChar d := by
  unfold digitVal at h
  split at h
  · rename_i hc
    cases h
    refine ⟨by omega, ?_⟩
    unfold digitChar
    have : 48 + (c.toNat - 48) = c.toNat := by omega
    rw [this, Char.ofNat_toNat]
  · cases h

/-- Parsing the characters of a list of digits gives the number the digits
denote, most significant first, after the number read so far. -/
theorem parseDigits_map (ds : List Nat) : (∀ d ∈ ds, d < 10) → ∀ acc : Nat,
    parseDigits acc (ds.map digitChar)
      = some (acc * 10 ^ ds.length + Nat.ofDigits 10 ds.reverse) := by
  induction ds with
  | nil => intro _ acc; simp [parseDigits]
  | cons d ds ih =>
    intro h acc
    have hd := h d (List.mem_cons_self _ _)
    have hrest := ih fun x hx => h x (List.mem_cons_of_mem _ hx)
    simp only [List.map_cons, parseDigits, digitVal_digitChar d hd, hrest, List.reverse_cons,
      Nat.ofDigits_append, Nat.ofDigits_singleton, List.length_reverse, List.length_cons,
      Option.some.injEq]
    ring

theorem parseDigits_some {cs : List Char} : ∀ {acc m : Nat}, parseDigits acc cs = some m →
    ∃ ds : List Nat, (∀ d ∈ ds, d < 10) ∧ cs = ds.map digitChar := by
  induction cs with
  | nil => intro _ _ _; exact ⟨[], by simp, rfl⟩
  | cons c cs ih =>
    intro acc m h
    simp only [parseDigits] at h
    cases hv : digitVal c with
    | none => simp [hv] at h
    | some d =>
      simp only [hv] at h
      obtain ⟨ds, hds, hcs⟩ := ih h
      obtain ⟨hd, hc⟩ := digitChar_of_digitVal hv
      refine ⟨d :: ds, ?_, by simp [hc, hcs]⟩
      intro x hx
      rcases List.mem_cons.1 hx with rfl | hx
      · exact hd
      · exact hds x hx

theorem atoiDigits_false_iff (cs : List Char) (n : Int) :
    atoiDigits false cs = some n ↔
      ∃ ds : List Nat, ds ≠ [] ∧ (∀ d ∈ ds, d < 10) ∧ cs = ds.map digitChar ∧
        n = ((Nat.ofDigits 10 ds.reverse : Nat) : Int) ∧ n ≤ maxInt := by
  constructor
  · intro h
    cases cs with
    | nil => simp [atoiDigits] at h
    | cons c cs =>
      simp only [atoiDigits] at h
      cases hp : parseDigits 0 (c :: cs) with
      | none => simp [hp] at h
      | some m =>
        obtain ⟨ds, hds, hcs⟩ := parseDigits_some hp
        have hm : m = Nat.ofDigits 10 ds.reverse := by
          have h2 := parseDigits_map ds hds 0
          rw [← hcs, hp] at h2
          simpa using h2
        simp only [hp, Bool.false_eq_true, if_false] at h
        split at h
        · rename_i hr
          cases h
          refine ⟨ds, ?_, hds, hcs, by rw [hm], hr.2⟩
          intro hnil
          rw [hnil] at hcs
          cases hcs
        · cases h
  · rintro ⟨ds, hne, hds, rfl, rfl, hmax⟩
    cases ds with
    | nil => exact absurd rfl hne
    | cons d ds =>
      have hp := parseDigits_map (d :: ds) hds 0
      simp only [zero_mul, zero_add] at hp
      simp only [List.map_cons] at hp
      simp only [atoiDigits, List.map_cons, hp, Bool.false_eq_true, if_false]
      have hlow : -(2 ^ 63 : Int) ≤ ((Nat.ofDigits 10 (d :: ds).reverse : Nat) : Int) := by
        have : (0 : Int) ≤ ((Nat.ofDigits 10 (d :: ds).reverse : Nat) : Int) :=
          Int.ofNat_nonneg _
        omega
      rw [if_pos ⟨hlow, hmax⟩]

theorem atoiDigits_true_le (cs : List Char) (n : Int) (h : atoiDigits true cs = some n) :
    n ≤ 0 := by
  cases cs with
  | nil => simp [atoiDigits] at h
  | cons c cs =>
    simp only [atoiDigits] at h
    cases hp : parseDigits 0 (c :: cs) with
    | none => simp [hp] at h
    | some m =>
      simp only [hp, if_true] at h
      split at h
      · cases h
        have : (0 : Int) ≤ (m : Int) := Int.ofNat_nonneg _
        omega
      · cases h

/-- `Atoi` returns a number n > 0 exactly on an optional plus sign followed
by at least one decimal digit, the digits denoting n, with n in the range of
`int`. -/
theorem Atoi_pos_iff (s : String) (n : Int) (hn : 0 < n) :
    Atoi s = some n ↔
      ∃ ds : List Nat, ds ≠ [] ∧ (∀ d ∈ ds, d < 10) ∧
        (s.data = ds.map digitChar ∨ s.data = '+' :: ds.map digitChar) ∧
        n = ((Nat.ofDigits 10 ds.reverse : Nat) : Int) ∧ n ≤ maxInt := by
  unfold Atoi
  constructor
  · intro h
    cases hs : s.data with
    | nil => simp [hs] at h
    | cons c cs =>
      simp only [hs] at h
      by_cases hplus : c = '+'
      · rw [if_pos hplus] at h
        obtain ⟨ds, h1, h2, h3, h4, h5⟩ := (atoiDigits_false_iff cs n).1 h
        exact ⟨ds, h1, h2, Or.inr (by rw [hplus, h3]), h4, h5⟩
      · rw [if_neg hplus] at h
        by_cases hminus : c = '-'
        · rw [if_pos hminus] at h
          have := atoiDigits_true_le cs n h
          omega
        · rw [if_neg hminus] at h
          obtain ⟨ds, h1, h2, h3, h4, h5⟩ := (atoiDigits_false_iff (c :: cs) n).1 h
          exact ⟨ds, h1, h2, Or.inl h3, h4, h5⟩
  · rintro ⟨ds, hne, hds, hdata, hval, hmax⟩
    rcases hdata with hd | hd
    · cases ds with
      | nil => exact absurd rfl hne
      | cons d ds =>
        have hc := digitChar_not_sign d (hds d (List.mem_cons_self _ _))
        rw [hd]
        simp only [List.map_cons, if_neg hc.1, if_neg hc.2.1]
        exact (atoiDigits_false_iff _ n).2 ⟨d :: ds, hne, hds, rfl, hval, hmax⟩
    · rw [hd]
      simp only [if_true]
      exact (atoiDigits_false_iff _ n).2 ⟨ds, hne, hds, rfl, hval, hmax⟩

theorem decDigits_spec (fuel : Nat) : ∀ n : Nat, n < 10 ^ fuel →
    (∀ d ∈ decDigits fuel n, d < 10) ∧ Nat.ofDigits 10 (decDigits fuel n) = n := by
  induction fuel with
  | zero =>
    intro n hn
    have : n = 0 := by simpa using hn
    subst this
    simp [decDigits]
  | succ fuel ih =>
    intro n hn
    by_cases h10 : n < 10
    · simp [decDigits, h10]
    · have hdiv : n / 10 < 10 ^ fuel := by
        rw [pow_succ] at hn
        omega
      obtain ⟨h1, h2⟩ := ih (n / 10) hdiv
      simp only [decDigits, if_neg h10, List.mem_cons, Nat.ofDigits_cons, h2]
      refine ⟨?_, ?_⟩
      · rintro d (rfl | hd)
        · omega
        · exact h1 d hd
      · omega

theorem decDigits_ne_nil (fuel n : Nat) : decDigits (fuel + 1) n ≠ [] := by
  unfold decDigits
  split <;> simp

theorem TrimPrefix_append (pre t : String) : TrimPrefix (pre ++ t) pre = t := by
  unfold TrimPrefix
  have h : pre.data.isPrefixOf (pre ++ t).data = true := by
    rw [List.isPrefixOf_iff_prefix, String.data_append]
    exact List.prefix_append _ _
  rw [if_pos h, String.data_append, List.drop_left]

theorem TrimSuffix_append (t suf : String) : TrimSuffix (t ++ suf) suf = t := by
  unfold TrimSuffix
  have h : suf.data.isSuffixOf (t ++ suf).data = true := by
    rw [List.isSuffixOf_iff_suffix, String.data_append]
    exact List.suffix_append _ _
  rw [if_pos h]
  simp only [String.data_append, List.length_append, Nat.add_sub_cancel]
  rw [List.take_left]

theorem TrimSuffix_slash_of_not_mem (s : String) (h : '/' ∉ s.data) : TrimSuffix s "/" = s := by
  unfold TrimSuffix
  have hn : ¬ ("/" : String).data.isSuffixOf s.data = true := by
    rw [List.isSuffixOf_iff_suffix]
    intro hsuf
    exact h (hsuf.subset (by decide))
  rw [if_neg hn]

/-- The decimal form of a number n with 1 <= n <= maxInt: its digits, its
value and what `Atoi` makes of it. -/
theorem Itoa_pos (n : Int) (h1 : 1 ≤ n) (h2 : n ≤ maxInt) :
    Itoa n ≠ "" ∧ '/' ∉ (Itoa n).data ∧ Atoi (Itoa n) = some n := by
  have hneg : ¬ n < 0 := by omega
  have hlt : n.toNat < 10 ^ 20 := by
    unfold maxInt at h2
    have : (n.toNat : Int) = n := Int.toNat_of_nonneg (by omega)
    have h3 : (n.toNat : Int) < 10 ^ 20 := by omega
    exact_mod_cast h3
  obtain ⟨hd, hv⟩ := decDigits_spec 20 n.toNat hlt
  have hne : decDigits 20 n.toNat ≠ [] := decDigits_ne_nil 19 _
  have hdata : (Itoa n).data = (decDigits 20 n.toNat).reverse.map digitChar := by
    simp [Itoa, hneg]
  refine ⟨?_, ?_, ?_⟩
  · intro h
    have h0 := congrArg String.data h
    rw [hdata] at h0
    simp at h0
    exact hne h0
  · rw [hdata]
    intro hm
    obtain ⟨d, hdm, hde⟩ := List.mem_map.1 hm
    exact (digitChar_not_sign d (hd d (List.mem_reverse.1 hdm))).2.2 hde
  · rw [Atoi_pos_iff (Itoa n) n (by omega)]
    refine ⟨(decDigits 20 n.toNat).reverse, by simpa using hne, ?_, Or.inl hdata, ?_, h2⟩
    · intro d hdm
      exact hd d (List.mem_reverse.1 hdm)
    · rw [List.reverse_reverse, hv]
      exact (Int.toNat_of_nonneg (by omega)).symm

theorem extractID_eq (path : String) :
    TodoHandler.extractID path =
      if TodoHandler.remainder path = "" then .error .ErrInvalidPath
      else match Atoi (TodoHandler.remainder path) with
        | none => .error .ErrInvalidID
        | some id => if id ≤ 0 then .error .ErrInvalidID else .ok id := rfl

theorem extractID_ok_iff (path : String) (id : Int) :
    TodoHandler.extractID path = .ok id ↔
      TodoHandler.remainder path ≠ "" ∧ Atoi (TodoHandler.remainder path) = some id ∧
        0 < id := by
  rw [extractID_eq]
  by_cases he : TodoHandler.remainder path = ""
  · simp [he]
  · rw [if_neg he]
    cases ha : Atoi (TodoHandler.remainder path) with
    | none => simp [he]
    | some v =>
      by_cases hv : v ≤ 0
      · simp only [if_pos hv, he, ne_eq, not_false_eq_true, Option.some.injEq, true_and]
        constructor
        · intro h; cases h
        · rintro ⟨rfl, h⟩; omega
      · simp only [if_neg hv, he, ne_eq, not_false_eq_true, Option.some.injEq, true_and,
          Except.ok.injEq]
        constructor
        · rintro rfl; exact ⟨rfl, by omega⟩
        · rintro ⟨rfl, _⟩; rfl

theorem validateUpdateInput_ne_InvalidID (input : UpdateTodoInput) :
    validateUpdateInput input ≠ some .ErrInvalidID := by
  have ht : ∀ s, validateTitle s ≠ some .ErrInvalidID := by
    intro s
    unfold validateTitle
    simp only
    split
    · simp
    · split <;> simp
  have hd : ∀ s, validateDescription s ≠ some .ErrInvalidID := by
    intro s
    unfold validateDescription
    split <;> simp
  unfold validateUpdateInput
  cases input.Title with
  | none => cases input.Description with
    | none => simp
    | some d => exact hd d
  | some t =>
    simp only
    split
    · exact ht t
    · cases input.Description with
      | none => simp
      | some d => exact hd d

/-- C16: for every n with 1 <= n <= maxInt, `extractID` returns n on
"/todos/" followed by the decimal form of n, and on the same path with one
trailing slash; whenever `extractID` returns an id on any path, the id is
> 0 and passes `validateID`, so that `GetByID`, `Update` and `Delete` of the
service never answer `ErrInvalidID` for it. -/
theorem extractID_roundtrip (n : Int) (h1 : 1 ≤ n) (h2 : n ≤ maxInt) :
    TodoHandler.extractID ("/todos/" ++ Itoa n) = .ok n ∧
    TodoHandler.extractID ("/todos/" ++ Itoa n ++ "/") = .ok n ∧
    ∀ path id, TodoHandler.extractID path = .ok id →
      0 < id ∧ validateID id = none ∧
      ∀ (r : TodoRepository) (now : Time) (input : UpdateTodoInput),
        TodoService.GetByID r id ≠ .error .ErrInvalidID ∧
        (TodoService.Update r now id input).2 ≠ .error .ErrInvalidID ∧
        (TodoService.Delete r id).2 ≠ some .ErrInvalidID := by
  obtain ⟨hne, hslash, hatoi⟩ := Itoa_pos n h1 h2
  have hr1 : TodoHandler.remainder ("/todos/" ++ Itoa n) = Itoa n := by
    unfold TodoHandler.remainder
    rw [TrimPrefix_append, TrimSuffix_slash_of_not_mem _ hslash]
  have hr2 : TodoHandler.remainder ("/todos/" ++ Itoa n ++ "/") = Itoa n := by
    unfold TodoHandler.remainder
    rw [String.append_assoc, TrimPrefix_append, TrimSuffix_append]
  refine ⟨?_, ?_, ?_⟩
  · rw [extractID_ok_iff, hr1]
    exact ⟨hne, hatoi, by omega⟩
  · rw [extractID_ok_iff, hr2]
    exact ⟨hne, hatoi, by omega⟩
  · intro path id hok
    have hpos := ((extractID_ok_iff path id).1 hok).2.2
    have hnle : ¬ id ≤ 0 := by omega
    have hv : validateID id = none := by simp [validateID, hnle]
    refine ⟨hpos, hv, ?_⟩
    intro r now input
    refine ⟨?_, ?_, ?_⟩
    · simp only [TodoService.GetByID, hv, TodoRepository.GetByID]
      cases mapGet r.todos id <;> simp
    · simp only [TodoService.Update, hv]
      cases hvu : validateUpdateInput input with
      | some e =>
        simp only [ne_eq, Except.error.injEq]
        intro he
        exact validateUpdateInput_ne_InvalidID input (by rw [hvu, he])
      | none =>
        simp only [TodoRepository.Update]
        cases mapGet r.todos id <;> simp
    · simp only [TodoService.Delete, hv, TodoRepository.Delete]
      cases mapGet r.todos id <;> simp

theorem extractID_roundtrip_witness :
    (1 : Int) ≤ 42 ∧ (42 : Int) ≤ maxInt ∧
    TodoHandler.extractID ("/todos/" ++ Itoa 42) = .ok 42 ∧
    TodoHandler.extractID ("/todos/" ++ Itoa 42 ++ "/") = .ok 42 :=
  ⟨by decide, by decide, (extractID_roundtrip 42 (by decide) (by decide)).1,
    (extractID_roundtrip 42 (by decide) (by decide)).2.1⟩

/-- C17: `extractID` returns `ErrInvalidPath` exactly when the remainder of
the path, what is left after `TrimPrefix` of "/todos/" and `TrimSuffix` of one
"/", is empty; it returns `ErrInvalidID` exactly when the remainder is not
empty and is not a decimal numeral (an optional plus sign, then at least one
decimal digit) of a number n with 0 < n <= maxInt; and on either error
`todoByIDHandler` answers 400 "invalid todo id" with the state it was given,
whatever the method and the body. The sample paths show the three outcomes:
only one trailing slash is removed, and a plus sign or leading zeros are
accepted. -/
theorem extractID_errors (path : String) :
    (TodoHandler.extractID path = .error .ErrInvalidPath ↔
      TodoHandler.remainder path = "") ∧
    (TodoHandler.extractID path = .error .ErrInvalidID ↔
      TodoHandler.remainder path ≠ "" ∧
      ¬ ∃ n : Int, 0 < n ∧ ∃ ds : List Nat, ds ≠ [] ∧ (∀ d ∈ ds, d < 10) ∧
          ((TodoHandler.remainder path).data = ds.map digitChar ∨
            (TodoHandler.remainder path).data = '+' :: ds.map digitChar) ∧
          n = ((Nat.ofDigits 10 ds.reverse : Nat) : Int) ∧ n ≤ maxInt) ∧
    (∀ e, TodoHandler.extractID path = .error e →
      (e = .ErrInvalidPath ∨ e = .ErrInvalidID) ∧
      ∀ (r : TodoRepository) (now : Time) (req : Request), req.Path = path →
        TodoHandler.todoByIDHandler r now req
          = (r, { status := 400, body := .error "invalid todo id" })) ∧
    (TodoHandler.extractID "/todos/" = .error .ErrInvalidPath ∧
      TodoHandler.extractID "/todos//" = .error .ErrInvalidPath ∧
      TodoHandler.extractID "/todos///" = .error .ErrInvalidID ∧
      TodoHandler.extractID "/todos/abc" = .error .ErrInvalidID ∧
      TodoHandler.extractID "/todos/0" = .error .ErrInvalidID ∧
      TodoHandler.extractID "/todos/-5" = .error .ErrInvalidID ∧
      TodoHandler.extractID "/todos/9223372036854775808" = .error .ErrInvalidID ∧
      TodoHandler.extractID "/todos/+5" = .ok 5 ∧
      TodoHandler.extractID "/todos/007" = .ok 7) := by
  refine ⟨?_, ?_, ?_, rfl, rfl, rfl, rfl, rfl, rfl, rfl, rfl, rfl⟩
  · rw [extractID_eq]
    by_cases he : TodoHandler.remainder path = ""
    · simp [he]
    · rw [if_neg he]
      cases Atoi (TodoHandler.remainder path) with
      | none => simp [he]
      | some v => by_cases hv : v ≤ 0 <;> simp [hv, he]
  · rw [extractID_eq]
    by_cases he : TodoHandler.remainder path = ""
    · simp [he]
    · rw [if_neg he]
      cases ha : Atoi (TodoHandler.remainder path) with
      | none =>
        simp only [true_iff]
        refine ⟨he, ?_⟩
        rintro ⟨n, hn, hds⟩
        rw [(Atoi_pos_iff _ n hn).2 hds] at ha
        cases ha
      | some v =>
        by_cases hv : v ≤ 0
        · simp only [if_pos hv, true_iff]
          refine ⟨he, ?_⟩
          rintro ⟨n, hn, hds⟩
          rw [(Atoi_pos_iff _ n hn).2 hds] at ha
          cases ha
          omega
        · simp only [if_neg hv]
          constructor
          · intro h; cases h
          · rintro ⟨_, hno⟩
            exact absurd ⟨v, by omega, (Atoi_pos_iff _ v (by omega)).1 ha⟩ hno
  · intro e hext
    constructor
    · rw [extractID_eq] at hext
      by_cases he : TodoHandler.remainder path = ""
      · rw [if_pos he] at hext
        cases hext
        exact Or.inl rfl
      · rw [if_neg he] at hext
        cases ha : Atoi (TodoHandler.remainder path) with
        | none =>
          rw [ha] at hext
          cases hext
          exact Or.inr rfl
        | some v =>
          rw [ha] at hext
          by_cases hv : v ≤ 0
          · simp only [if_pos hv] at hext
            cases hext
            exact Or.inr rfl
          · simp only [if_neg hv] at hext
            cases hext
    · intro r now req hp
      simp only [TodoHandler.todoByIDHandler, hp, hext, TodoHandler.respondError,
        StatusBadRequest]

/-! ## Status codes -/

/-- C18: `handleServiceError` answers `ErrTodoNotFound` (bare or wrapped) with
404; each of `ErrTitleRequired`, `ErrTitleTooLong`, `ErrDescriptionTooLong`
and `ErrInvalidID` (bare, or wrapped in an error that does not wrap
`ErrTodoNotFound`) with 400 and the text of the error itself; and every error
that is none of the five with 500 and the text "internal server error", the
same response whatever the text of that error. -/
theorem handleServiceError_mapping :
    (∀ err, errorsIs err .ErrTodoNotFound = true →
      TodoHandler.handleServiceError err
        = { status := 404, body := .error "todo not found" }) ∧
    TodoHandler.handleServiceError (.sentinel .ErrTodoNotFound)
      = { status := 404, body := .error "todo not found" } ∧
    (∀ e, e = .ErrTitleRequired ∨ e = .ErrTitleTooLong ∨ e = .ErrDescriptionTooLong ∨
        e = .ErrInvalidID →
      TodoHandler.handleServiceError (.sentinel e)
        = { status := 400, body := .error e.Error }) ∧
    (∀ err, errorsIs err .ErrTodoNotFound = false →
      (errorsIs err .ErrTitleRequired = true ∨ errorsIs err .ErrTitleTooLong = true ∨
        errorsIs err .ErrDescriptionTooLong = true ∨ errorsIs err .ErrInvalidID = true) →
      TodoHandler.handleServiceError err = { status := 400, body := .error err.Error }) ∧
    (∀ err, errorsIs err .ErrTodoNotFound = false → errorsIs err .ErrTitleRequired = false →
      errorsIs err .ErrTitleTooLong = false → errorsIs err .ErrDescriptionTooLong = false →
      errorsIs err .ErrInvalidID = false →
      TodoHandler.handleServiceError err
        = { status := 500, body := .error "internal server error" }) ∧
    (∀ text1 text2, TodoHandler.handleServiceError (.other text1)
      = TodoHandler.handleServiceError (.other text2)) ∧
    TodoHandler.handleServiceError (.sentinel .ErrInvalidPath)
      = { status := 500, body := .error "internal server error" } := by
  refine ⟨?_, rfl, ?_, ?_, ?_, ?_, rfl⟩
  · intro err h
    simp [TodoHandler.handleServiceError, h, TodoHandler.respondError, StatusNotFound]
  · rintro e (rfl | rfl | rfl | rfl) <;> rfl
  · intro err h0 h
    simp only [TodoHandler.handleServiceError, h0, Bool.false_eq_true, if_false,
      TodoHandler.respondError, StatusBadRequest]
    rcases h with h | h | h | h <;> simp [h]
  · intro err h0 h1 h2 h3 h4
    simp [TodoHandler.handleServiceError, h0, h1, h2, h3, h4, TodoHandler.respondError,
      StatusInternalServerError]
  · intro text1 text2
    rfl

/-- C20: a request to `todosHandler` whose method is neither POST nor GET,
and a request to `todoByIDHandler` whose path carries an id and whose method
is none of GET, PUT and DELETE, is answered 405 "method not allowed" with the
state it was given. -/
theorem method_not_allowed (toLower : Char → Char) (r : TodoRepository) (now : Time)
    (req1 req2 : Request) (id : Int)
    (h1 : req1.Method ≠ "POST") (h2 : req1.Method ≠ "GET")
    (hid : TodoHandler.extractID req2.Path = .ok id)
    (h3 : req2.Method ≠ "GET") (h4 : req2.Method ≠ "PUT") (h5 : req2.Method ≠ "DELETE") :
    TodoHandler.todosHandler toLower r now req1
      = (r, { status := 405, body := .error "method not allowed" }) ∧
    TodoHandler.todoByIDHandler r now req2
      = (r, { status := 405, body := .error "method not allowed" }) := by
  constructor
  · simp [TodoHandler.todosHandler, h1, h2, TodoHandler.respondError, StatusMethodNotAllowed]
  · simp [TodoHandler.todoByIDHandler, hid, h3, h4, h5, TodoHandler.respondError,
      StatusMethodNotAllowed]

theorem method_not_allowed_witness :
    ("PATCH" : String) ≠ "POST" ∧ ("PATCH" : String) ≠ "GET" ∧
    TodoHandler.extractID (byID "PATCH" 5 (.error .eof)).Path = .ok 5 ∧
    ("PATCH" : String) ≠ "PUT" ∧ ("PATCH" : String) ≠ "DELETE" ∧
    TodoHandler.todosHandler Char.toLower sampleRepo 0
        { Method := "PATCH", Path := "/todos", completed := "", search := "",
          createBody := .ok sampleInput, updateBody := .error .eof }
      = (sampleRepo, { status := 405, body := .error "method not allowed" }) ∧
    TodoHandler.todoByIDHandler sampleRepo 0 (byID "PATCH" 5 (.error .eof))
      = (sampleRepo, { status := 405, body := .error "method not allowed" }) :=
  ⟨by decide, by decide, rfl, by decide, by decide,
    method_not_allowed Char.toLower sampleRepo 0
      { Method := "PATCH", Path := "/todos", completed := "", search := "",
        createBody := .ok sampleInput, updateBody := .error .eof }
      (byID "PATCH" 5 (.error .eof)) 5 (by decide) (by decide) rfl (by decide) (by decide)
      (by decide)⟩

/-! ## The request scenario -/

theorem extractID_Itoa (n : Int) (h1 : 1 ≤ n) (h2 : n ≤ maxInt) :
    TodoHandler.extractID ("/todos/" ++ Itoa n) = .ok n := by
  obtain ⟨hne, hslash, hatoi⟩ := Itoa_pos n h1 h2
  have hr1 : TodoHandler.remainder ("/todos/" ++ Itoa n) = Itoa n := by
    unfold TodoHandler.remainder
    rw [TrimPrefix_append, TrimSuffix_slash_of_not_mem _ hslash]
  rw [extractID_ok_iff, hr1]
  exact ⟨hne, hatoi, by omega⟩

theorem Service_Create_ok (r : TodoRepository) (now : Time) (input : CreateTodoInput)
    (hv : validateCreateInput
      ⟨TrimSpace input.Title, TrimSpace input.Description, input.Completed⟩ = none) :
    TodoService.Create r now input
      = r.Create now ⟨TrimSpace input.Title, TrimSpace input.Description, input.Completed⟩ := by
  simp only [TodoService.Create, hv]

theorem Service_Update_ok (r : TodoRepository) (now : Time) (id : Int) (input : UpdateTodoInput)
    (hid : 0 < id) (hv : validateUpdateInput input = none) :
    TodoService.Update r now id input
      = r.Update now id
          ⟨input.Title.map TrimSpace, input.Description.map TrimSpace, input.Completed⟩ := by
  have hnle : ¬ id ≤ 0 := by omega
  simp only [TodoService.Update, validateID, if_neg hnle, hv]
  obtain ⟨t, d, c⟩ := input
  cases t <;> cases d <;> rfl

theorem byID_GET_found (r : TodoRepository) (now : Time) (id : Int)
    (u : Except DecodeError UpdateTodoInput) (p : Ptr) (t : Todo)
    (h1 : 1 ≤ id) (h2 : id ≤ maxInt) (hp : mapGet r.todos id = some p)
    (hl : r.load p = some t) :
    TodoHandler.todoByIDHandler r now (byID "GET" id u)
      = (r, { status := 200, body := .todo t }) := by
  have hnle : ¬ id ≤ 0 := by omega
  simp [TodoHandler.todoByIDHandler, byID, extractID_Itoa id h1 h2, TodoHandler.getTodoByID,
    TodoService.GetByID, validateID, hnle, TodoRepository.GetByID, hp,
    TodoHandler.respondTodo, hl, StatusOK]

theorem byID_GET_absent (r : TodoRepository) (now : Time) (id : Int)
    (u : Except DecodeError UpdateTodoInput)
    (h1 : 1 ≤ id) (h2 : id ≤ maxInt) (hp : mapGet r.todos id = none) :
    TodoHandler.todoByIDHandler r now (byID "GET" id u)
      = (r, { status := 404, body := .error "todo not found" }) := by
  have hnle : ¬ id ≤ 0 := by omega
  simp [TodoHandler.todoByIDHandler, byID, extractID_Itoa id h1 h2, TodoHandler.getTodoByID,
    TodoService.GetByID, validateID, hnle, TodoRepository.GetByID, hp,
    TodoHandler.handleServiceError, errorsIs, TodoHandler.respondError, StatusNotFound]

theorem byID_PUT_found (r : TodoRepository) (now : Time) (id : Int) (input : UpdateTodoInput)
    (p : Ptr) (t : Todo) (h1 : 1 ≤ id) (h2 : id ≤ maxInt)
    (hv : validateUpdateInput input = none) (hp : mapGet r.todos id = some p)
    (hl : r.load p = some t) :
    TodoHandler.todoByIDHandler r now (byID "PUT" id (.ok input))
      = ((r.Update now id
            ⟨input.Title.map TrimSpace, input.Description.map TrimSpace, input.Completed⟩).1,
          { status := 200,
            body := .todo (TodoRepository.applyUpdate now
              ⟨input.Title.map TrimSpace, input.Description.map TrimSpace, input.Completed⟩
              t) }) := by
  have hm : ¬ ("PUT" : String) = "GET" := by decide
  have hload := load_Update r now id
    ⟨input.Title.map TrimSpace, input.Description.map TrimSpace, input.Completed⟩ hp p
  rw [if_pos rfl, hl] at hload
  have hres : (r.Update now id
      ⟨input.Title.map TrimSpace, input.Description.map TrimSpace, input.Completed⟩).2
      = .ok p := by
    simp [TodoRepository.Update, hp]
  simp only [TodoHandler.todoByIDHandler, byID, extractID_Itoa id h1 h2, hm, if_false, if_true,
    TodoHandler.updateTodo, Service_Update_ok r now id input (by omega) hv]
  generalize hU : r.Update now id
      ⟨input.Title.map TrimSpace, input.Description.map TrimSpace, input.Completed⟩ = res at *
  obtain ⟨r1, e⟩ := res
  simp only at hres hload
  subst hres
  simp [TodoHandler.respondTodo, hload, StatusOK]

theorem byID_DELETE_found (r : TodoRepository) (now : Time) (id : Int)
    (u : Except DecodeError UpdateTodoInput) (p : Ptr)
    (h1 : 1 ≤ id) (h2 : id ≤ maxInt) (hp : mapGet r.todos id = some p) :
    TodoHandler.todoByIDHandler r now (byID "DELETE" id u)
      = ((r.Delete id).1, { status := 204, body := .empty }) := by
  have hnle : ¬ id ≤ 0 := by omega
  have hm1 : ¬ ("DELETE" : String) = "GET" := by decide
  have hm2 : ¬ ("DELETE" : String) = "PUT" := by decide
  simp [TodoHandler.todoByIDHandler, byID, extractID_Itoa id h1 h2, hm1, hm2,
    TodoHandler.deleteTodo, TodoService.Delete, validateID, hnle, TodoRepository.Delete, hp,
    StatusNoContent]

theorem postTodos_created (toLower : Char → Char) (r : TodoRepository) (now : Time)
    (input : CreateTodoInput)
    (hv : validateCreateInput
      ⟨TrimSpace input.Title, TrimSpace input.Description, input.Completed⟩ = none) :
    TodoHandler.todosHandler toLower r now (postTodos input)
      = ((r.Create now
            ⟨TrimSpace input.Title, TrimSpace input.Description, input.Completed⟩).1,
          { status := 201,
            body := .todo ⟨r.nextID, TrimSpace input.Title, TrimSpace input.Description,
              input.Completed, now, now⟩ }) := by
  have hl := load_Create_new r now
    ⟨TrimSpace input.Title, TrimSpace input.Description, input.Completed⟩
  simp only at hl
  simp only [TodoHandler.todosHandler, postTodos, if_true, TodoHandler.createTodo,
    Service_Create_ok r now input hv]
  generalize hC : r.Create now
      ⟨TrimSpace input.Title, TrimSpace input.Description, input.Completed⟩ = res at *
  have hres : res.2 = .ok r.heap.length := by rw [← hC]; rfl
  obtain ⟨r1, e⟩ := res
  simp only at hres hl
  subst hres
  simp [TodoHandler.respondTodo, hl, StatusCreated]

/-- C19: from a state whose id counter is in 1..maxInt, `POST /todos` with a
body that passes validation after trimming answers 201 with the created
record, whose id is the counter (1 on `NewTodoRepository`); `GET /todos/{id}`
then answers 200 with the same record; `PUT /todos/{id}` with a body that
passes `validateUpdateInput` answers 200 with the record carrying the trimmed
fields that are present; `DELETE /todos/{id}` answers 204 with no body; and
`GET /todos/{id}` after it answers 404. A `POST /todos` whose title is empty
answers 400 "title required" and leaves the state as it was. -/
theorem handler_scenario (toLower : Char → Char) (r : TodoRepository) (t0 t1 t2 t3 : Time)
    (input : CreateTodoInput) (uinput : UpdateTodoInput)
    (h1 : 1 ≤ r.nextID) (h2 : r.nextID ≤ maxInt)
    (hv : validateCreateInput
      ⟨TrimSpace input.Title, TrimSpace input.Description, input.Completed⟩ = none)
    (hu : validateUpdateInput uinput = none) :
    (∃ r1 r2 r3 : TodoRepository,
      TodoHandler.todosHandler toLower r t0 (postTodos input)
        = (r1, { status := 201,
                 body := .todo ⟨r.nextID, TrimSpace input.Title,
                   TrimSpace input.Description, input.Completed, t0, t0⟩ }) ∧
      TodoHandler.todoByIDHandler r1 t1 (byID "GET" r.nextID (.error .eof))
        = (r1, { status := 200,
                 body := .todo ⟨r.nextID, TrimSpace input.Title,
                   TrimSpace input.Description, input.Completed, t0, t0⟩ }) ∧
      TodoHandler.todoByIDHandler r1 t1 (byID "PUT" r.nextID (.ok uinput))
        = (r2, { status := 200,
                 body := .todo ⟨r.nextID,
                   (uinput.Title.map TrimSpace).getD (TrimSpace input.Title),
                   (uinput.Description.map TrimSpace).getD (TrimSpace input.Description),
                   uinput.Completed.getD input.Completed, t0, t1⟩ }) ∧
      TodoHandler.todoByIDHandler r2 t2 (byID "DELETE" r.nextID (.error .eof))
        = (r3, { status := 204, body := .empty }) ∧
      TodoHandler.todoByIDHandler r3 t3 (byID "GET" r.nextID (.error .eof))
        = (r3, { status := 404, body := .error "todo not found" })) ∧
    NewTodoRepository.nextID = 1 ∧
    (∀ (desc : String) (completed : Bool),
      TodoHandler.todosHandler toLower r t0 (postTodos ⟨"", desc, completed⟩)
        = (r, { status := 400, body := .error "title required" })) := by
  refine ⟨?_, rfl, ?_⟩
  · have hp1 : mapGet (r.Create t0
        ⟨TrimSpace input.Title, TrimSpace input.Description, input.Completed⟩).1.todos
        r.nextID = some r.heap.length := by
      simp [TodoRepository.Create, mapGet_mapSet_self]
    have hl1 := load_Create_new r t0
      ⟨TrimSpace input.Title, TrimSpace input.Description, input.Completed⟩
    simp only at hl1
    generalize hr1 : (r.Create t0
      ⟨TrimSpace input.Title, TrimSpace input.Description, input.Completed⟩).1 = r1 at *
    have hput := byID_PUT_found r1 t1 r.nextID uinput r.heap.length _ h1 h2 hu hp1 hl1
    have hp2 : mapGet (r1.Update t1 r.nextID
        ⟨uinput.Title.map TrimSpace, uinput.Description.map TrimSpace,
          uinput.Completed⟩).1.todos r.nextID = some r.heap.length := by
      simp [TodoRepository.Update, hp1]
    generalize hr2 : (r1.Update t1 r.nextID
      ⟨uinput.Title.map TrimSpace, uinput.Description.map TrimSpace,
        uinput.Completed⟩).1 = r2 at *
    have hp3 : mapGet (r2.Delete r.nextID).1.todos r.nextID = none := by
      simp [TodoRepository.Delete, hp2, mapGet_mapDel_self]
    refine ⟨r1, r2, (r2.Delete r.nextID).1, ?_, ?_, ?_, ?_, ?_⟩
    · rw [postTodos_created toLower r t0 input hv, hr1]
    · exact byID_GET_found r1 t1 r.nextID _ r.heap.length _ h1 h2 hp1 hl1
    · rw [hput, applyUpdate_eq]
    · exact byID_DELETE_found r2 t2 r.nextID _ r.heap.length h1 h2 hp2
    · exact byID_GET_absent _ t3 r.nextID _ h1 h2 hp3
  · intro desc completed
    have ht : TrimSpace "" = "" := by decide
    simp [TodoHandler.todosHandler, postTodos, TodoHandler.createTodo,
      Service_Create_eq, ht, TodoHandler.handleServiceError, errorsIs,
      TodoHandler.respondError, StatusBadRequest, GoError.Error, Err.Error]

theorem handler_scenario_witness :
    1 ≤ NewTodoRepository.nextID ∧ NewTodoRepository.nextID ≤ maxInt ∧
    validateCreateInput
      ⟨TrimSpace task1.Title, TrimSpace task1.Description, task1.Completed⟩ = none ∧
    validateUpdateInput task1Update = none ∧
    (∃ r1 r2 r3 : TodoRepository,
      TodoHandler.todosHandler Char.toLower NewTodoRepository 1 (postTodos task1)
        = (r1, { status := 201, body := .todo ⟨1, "Task 1", "Desc 1", false, 1, 1⟩ }) ∧
      TodoHandler.todoByIDHandler r1 2 (byID "GET" 1 (.error .eof))
        = (r1, { status := 200, body := .todo ⟨1, "Task 1", "Desc 1", false, 1, 1⟩ }) ∧
      TodoHandler.todoByIDHandler r1 2 (byID "PUT" 1 (.ok task1Update))
        = (r2, { status := 200,
                 body := .todo ⟨1, "Updated Task", "Updated Desc", true, 1, 2⟩ }) ∧
      TodoHandler.todoByIDHandler r2 3 (byID "DELETE" 1 (.error .eof))
        = (r3, { status := 204, body := .empty }) ∧
      TodoHandler.todoByIDHandler r3 4 (byID "GET" 1 (.error .eof))
        = (r3, { status := 404, body := .error "todo not found" })) ∧
    TodoHandler.todosHandler Char.toLower NewTodoRepository 1 (postTodos ⟨"", "Desc", false⟩)
      = (NewTodoRepository, { status := 400, body := .error "title required" }) :=
  ⟨by decide, by decide, by decide, by decide,
    (handler_scenario Char.toLower NewTodoRepository 1 2 3 4 task1 task1Update
      (by decide) (by decide) (by decide) (by decide)).1,
    (handler_scenario Char.toLower NewTodoRepository 1 2 3 4 task1 task1Update
      (by decide) (by decide) (by decide) (by decide)).2.2 "Desc" false⟩

/-! ## Timestamps -/

theorem forall_mem_modify {P : Todo → Prop} (f : Todo → Todo) (l : List Todo) :
    ∀ n : Nat, (∀ t ∈ l, P t) → (∀ t ∈ l, P (f t)) → ∀ t ∈ l.modify f n, P t := by
  induction l with
  | nil => intro n _ _ t ht; simp at ht
  | cons a l ih =>
    intro n h hf t ht
    cases n with
    | zero =>
      simp only [List.modify_zero_cons, List.mem_cons] at ht
      rcases ht with rfl | ht
      · exact hf a (List.mem_cons_self _ _)
      · exact h t (List.mem_cons_of_mem _ ht)
    | succ n =>
      simp only [List.modify_succ_cons, List.mem_cons] at ht
      rcases ht with rfl | ht
      · exact h t (List.mem_cons_self _ _)
      · exact ih n (fun x hx => h x (List.mem_cons_of_mem _ hx))
          (fun x hx => hf x (List.mem_cons_of_mem _ hx)) t ht

theorem heap_Update_forall {P : Todo → Prop} (r : TodoRepository) (now : Time) (id : Int)
    (input : UpdateTodoInput) (h : ∀ t ∈ r.heap, P t)
    (hf : ∀ t ∈ r.heap, P (TodoRepository.applyUpdate now input t)) :
    ∀ t ∈ (r.Update now id input).1.heap, P t := by
  unfold TodoRepository.Update
  cases mapGet r.todos id with
  | none => exact h
  | some p => exact forall_mem_modify _ _ p h hf

/-- Along a run whose remaining clock readings are in order and not before
the updatedAt of any allocated record, createdAt <= updatedAt holds for every
allocated record at the end. -/
theorem run_times (ops : List Op) : ∀ r : TodoRepository,
    (∀ t ∈ r.heap, t.CreatedAt ≤ t.UpdatedAt ∧ ∀ x ∈ clockReadings ops, t.UpdatedAt ≤ x) →
    (clockReadings ops).Pairwise (· ≤ ·) →
    ∀ t ∈ (run r ops).heap, t.CreatedAt ≤ t.UpdatedAt := by
  induction ops with
  | nil => intro r h _ t ht; exact (h t ht).1
  | cons op ops ih =>
    intro r h hp
    cases op with
    | create now input =>
      simp only [clockReadings, List.pairwise_cons] at hp
      apply ih _ _ hp.2
      intro t ht
      simp only [step, TodoRepository.Create, List.mem_append, List.mem_singleton] at ht
      rcases ht with ht | rfl
      · exact ⟨(h t ht).1, fun x hx => (h t ht).2 x (by simp [clockReadings, hx])⟩
      · exact ⟨le_refl _, fun x hx => hp.1 x hx⟩
    | update now id input =>
      simp only [clockReadings, List.pairwise_cons] at hp
      apply ih _ _ hp.2
      show ∀ t ∈ (r.Update now id input).1.heap, _
      apply heap_Update_forall
      · intro t ht
        exact ⟨(h t ht).1, fun x hx => (h t ht).2 x (by simp [clockReadings, hx])⟩
      · intro t ht
        rw [applyUpdate_eq]
        have h1 := (h t ht).1
        have h2 := (h t ht).2 now (by simp [clockReadings])
        exact ⟨le_trans h1 h2, fun x hx => hp.1 x hx⟩
    | delete id =>
      simp only [clockReadings] at hp h
      apply ih _ _ hp
      intro t ht
      have hh : (r.Delete id).1.heap = r.heap := by
        unfold TodoRepository.Delete
        cases mapGet r.todos id <;> rfl
      simp only [step, hh] at ht
      exact h t ht

theorem applyUpdate_CreatedAt (now : Time) (input : UpdateTodoInput) (t : Todo) :
    (TodoRepository.applyUpdate now input t).CreatedAt = t.CreatedAt := by
  rw [applyUpdate_eq]

/-- C21: after a run from `NewTodoRepository` whose clock readings never go
backwards, the record of every bound id has createdAt <= updatedAt; `Create`
sets the createdAt of the record it allocates to the clock reading, and no
call, `Update` in particular, changes the createdAt of a record that is
already allocated. -/
theorem updatedAt_ge_createdAt (ops : List Op)
    (h : (clockReadings ops).Pairwise (· ≤ ·)) :
    (∀ k p t, mapGet (run NewTodoRepository ops).todos k = some p →
      (run NewTodoRepository ops).load p = some t → t.CreatedAt ≤ t.UpdatedAt) ∧
    (∀ (r : TodoRepository) (now : Time) (input : CreateTodoInput),
      ((r.Create now input).1.load r.heap.length).map (·.CreatedAt) = some now) ∧
    (∀ (r : TodoRepository) (op : Op) (q : Ptr) (t : Todo), r.load q = some t →
      ((step r op).load q).map (·.CreatedAt) = some t.CreatedAt) := by
  refine ⟨?_, ?_, ?_⟩
  · intro k p t _ hl
    have hmem : t ∈ (run NewTodoRepository ops).heap := by
      unfold TodoRepository.load at hl
      exact List.getElem?_mem hl
    exact run_times ops NewTodoRepository (by simp [NewTodoRepository]) h t hmem
  · intro r now input
    rw [load_Create_new]
    rfl
  · intro r op q t hl
    cases op with
    | create now input =>
      simp only [step]
      rw [load_Create_old r now input (load_lt hl), hl]
      rfl
    | update now id input =>
      simp only [step]
      cases hp : mapGet r.todos id with
      | none => rw [Update_absent r now id input hp, hl]; rfl
      | some p =>
        rw [load_Update r now id input hp, hl]
        by_cases hq : p = q
        · rw [if_pos hq]
          simp [applyUpdate_CreatedAt]
        · rw [if_neg hq]
          rfl
    | delete id =>
      have hh : (r.Delete id).1.heap = r.heap := by
        unfold TodoRepository.Delete
        cases mapGet r.todos id <;> rfl
      simp only [step, TodoRepository.load, hh]
      unfold TodoRepository.load at hl
      rw [hl]
      rfl

theorem updatedAt_ge_createdAt_witness :
    (clockReadings sampleOps).Pairwise (· ≤ ·) ∧
    ∀ k p t, mapGet sampleStore.todos k = some p →
      sampleStore.load p = some t → t.CreatedAt ≤ t.UpdatedAt :=
  ⟨by decide, (updatedAt_ge_createdAt sampleOps (by decide)).1⟩

/-! ## Dispatch of GET /todos -/

/-- C23: on a GET request `todosHandler` is `getFilteredTodos` when the
`completed` or the `search` query value is not empty and `getAllTodos` when
both are empty; `getFilteredTodos` calls `GetFiltered` of the service with the
search value as it is and with the filter absent for an empty `completed`
value, `true` for the value "true" and `false` for every other value; the
answer is 200 with a slice in every case. On the sample store the value
"TRUE" selects the record that is not completed. -/
theorem filter_dispatch (toLower : Char → Char) (r : TodoRepository) (now : Time)
    (req : Request) (hm : req.Method = "GET") :
    (req.completed ≠ "" ∨ req.search ≠ "" →
      TodoHandler.todosHandler toLower r now req
        = TodoHandler.getFilteredTodos toLower r req) ∧
    (req.completed = "" ∧ req.search = "" →
      TodoHandler.todosHandler toLower r now req = TodoHandler.getAllTodos r) ∧
    TodoHandler.getFilteredTodos toLower r req
      = (r, match TodoService.GetFiltered toLower r
              (if req.completed = "" then none
               else if req.completed = "true" then some true else some false)
              req.search with
            | .error err => TodoHandler.handleServiceError (.sentinel err)
            | .ok todos => { status := 200, body := .todos todos }) ∧
    (∃ todos, TodoHandler.todosHandler toLower r now req
      = (r, { status := 200, body := .todos todos })) ∧
    (TodoHandler.todosHandler Char.toLower sampleStore 0 (getTodos "TRUE" "")).2
      = { status := 200,
          body := .todos (some [⟨3, "Test Task", "Test Description", false, 12, 12⟩]) } := by
  have hp : ¬ req.Method = "POST" := by rw [hm]; decide
  have hf : TodoHandler.getFilteredTodos toLower r req
      = (r, match TodoService.GetFiltered toLower r
              (if req.completed = "" then none
               else if req.completed = "true" then some true else some false)
              req.search with
            | .error err => TodoHandler.handleServiceError (.sentinel err)
            | .ok todos => { status := 200, body := .todos todos }) := by
    unfold TodoHandler.getFilteredTodos
    by_cases hc : req.completed = ""
    · simp only [hc, ne_eq, not_true_eq_false, if_false, if_true]
      cases TodoService.GetFiltered toLower r none req.search <;> rfl
    · by_cases ht : req.completed = "true"
      · simp only [ht, ne_eq, if_true, decide_True]
        have : ¬ ("true" : String) = "" := by decide
        simp only [this, not_false_eq_true, if_true, if_false]
        cases TodoService.GetFiltered toLower r (some true) req.search <;> rfl
      · simp only [hc, ht, ne_eq, not_false_eq_true, if_true, if_false, decide_False]
        cases TodoService.GetFiltered toLower r (some false) req.search <;> rfl
  refine ⟨?_, ?_, hf, ?_, by decide⟩
  · intro h
    simp only [TodoHandler.todosHandler, if_neg hp, if_pos hm]
    rw [if_pos h]
  · intro h
    have hn : ¬ (req.completed ≠ "" ∨ req.search ≠ "") := by
      simp [h.1, h.2]
    simp only [TodoHandler.todosHandler, if_neg hp, if_pos hm]
    rw [if_neg hn]
  · by_cases h : req.completed ≠ "" ∨ req.search ≠ ""
    · obtain ⟨s1, hs⟩ := elems_GetFiltered toLower r
        (if req.completed = "" then none
         else if req.completed = "true" then some true else some false) req.search
      refine ⟨s1, ?_⟩
      simp only [TodoHandler.todosHandler, if_neg hp, if_pos hm]
      rw [if_pos h, hf, TodoService.GetFiltered, hs.1]
    · refine ⟨some (r.todos.filterMap fun kv => r.load kv.2), ?_⟩
      simp only [TodoHandler.todosHandler, if_neg hp, if_pos hm]
      rw [if_neg h]
      simp only [TodoHandler.getAllTodos, TodoService.GetAll, GetAll_eq, StatusOK]

theorem filter_dispatch_witness :
    (getTodos "yes" "task").Method = "GET" ∧
    TodoHandler.todosHandler Char.toLower sampleStore 0 (getTodos "yes" "task")
      = TodoHandler.getFilteredTodos Char.toLower sampleStore (getTodos "yes" "task") ∧
    ∃ todos, TodoHandler.todosHandler Char.toLower sampleStore 0 (getTodos "yes" "task")
      = (sampleStore, { status := 200, body := .todos todos }) :=
  ⟨rfl,
    (filter_dispatch Char.toLower sampleStore 0 (getTodos "yes" "task") rfl).1
      (Or.inl (by decide)),
    (filter_dispatch Char.toLower sampleStore 0 (getTodos "yes" "task") rfl).2.2.2.1⟩

/-! ## The field rules on stored records -/

theorem TrimSpace_head (s : String) (c : Char) (h : (TrimSpace s).data.head? = some c) :
    isSpace c = false := by
  unfold TrimSpace at h
  have hself := trim_dropWhile_self s.data
  rw [List.dropWhile_eq_self_iff] at hself
  generalize (s.data.dropWhile isSpace).rdropWhile isSpace = l at h hself
  cases l with
  | nil => simp at h
  | cons a l =>
    simp only [List.head?_cons, Option.some.injEq] at h
    subst h
    have := hself (by simp)
    simpa using this

theorem TrimSpace_getLast (s : String) (c : Char) (h : (TrimSpace s).data.getLast? = some c) :
    isSpace c = false := by
  unfold TrimSpace at h
  have hself := List.rdropWhile_idempotent isSpace (s.data.dropWhile isSpace)
  rw [List.rdropWhile_eq_self_iff] at hself
  generalize (s.data.dropWhile isSpace).rdropWhile isSpace = l at h hself
  by_cases hl : l = []
  · subst hl; simp at h
  · rw [List.getLast?_eq_getLast _ hl, Option.some.injEq] at h
    subst h
    simpa using hself hl

theorem utf8Len_sublist {l1 l2 : List Char} (h : l1.Sublist l2) :
    String.utf8Len l1 ≤ String.utf8Len l2 := by
  induction h with
  | slnil => exact le_refl _
  | cons a _ ih => simp only [String.utf8Len_cons]; omega
  | cons₂ a _ ih => simp only [String.utf8Len_cons]; omega

theorem len_TrimSpace_le (s : String) : len (TrimSpace s) ≤ len s := by
  unfold len TrimSpace
  exact utf8Len_sublist
    ((List.rdropWhile_prefix isSpace _).sublist.trans (List.dropWhile_sublist isSpace))

theorem validateTitle_none {s : String} (h : validateTitle s = none) :
    TrimSpace s ≠ "" ∧ len (TrimSpace s) ≤ 255 := by
  unfold validateTitle MaxTitleLength at h
  by_cases h1 : TrimSpace s = ""
  · simp [h1] at h
  · by_cases h2 : len (TrimSpace s) > 255
    · simp [h1, h2] at h
    · exact ⟨h1, by omega⟩

theorem validateDescription_none {s : String} (h : validateDescription s = none) :
    len s ≤ 1000 := by
  unfold validateDescription MaxDescriptionLength at h
  by_cases h1 : len s > 1000
  · simp [h1] at h
  · omega

theorem validateUpdateInput_none {input : UpdateTodoInput}
    (h : validateUpdateInput input = none) :
    (∀ t, input.Title = some t → validateTitle t = none) ∧
    (∀ d, input.Description = some d → validateDescription d = none) := by
  obtain ⟨t, d, c⟩ := input
  unfold validateUpdateInput at h
  cases t with
  | none =>
    cases d with
    | none => simp
    | some d => simpa using h
  | some t =>
    by_cases ht : validateTitle t = none
    · cases d with
      | none => simpa using ht
      | some d =>
        simp only [ht, ne_eq, not_true_eq_false, if_false] at h
        simp [ht, h]
    · simp only [ne_eq, ht, not_false_eq_true, if_true] at h

/-- A property of records that holds of every record the service creates
from accepted fields and is kept by every accepted update holds of every
allocated record after any sequence of calls of the service. -/
theorem serveAll_forall {P : Todo → Prop}
    (hc : ∀ (id : Int) (now : Time) (input : CreateTodoInput),
      TrimSpace input.Title ≠ "" → len (TrimSpace input.Title) ≤ 255 →
      len (TrimSpace input.Description) ≤ 1000 →
      P ⟨id, TrimSpace input.Title, TrimSpace input.Description, input.Completed, now, now⟩)
    (hu : ∀ (now : Time) (input : UpdateTodoInput) (t : Todo),
      validateUpdateInput input = none → P t →
      P (TodoRepository.applyUpdate now
        ⟨input.Title.map TrimSpace, input.Description.map TrimSpace, input.Completed⟩ t))
    (cs : List Call) : ∀ r : TodoRepository,
    (∀ t ∈ r.heap, P t) → ∀ t ∈ (serveAll r cs).heap, P t := by
  induction cs with
  | nil => intro r h; exact h
  | cons c cs ih =>
    intro r h
    apply ih
    cases c with
    | create now input =>
      show ∀ t ∈ (TodoService.Create r now input).1.heap, P t
      rw [Service_Create_eq]
      by_cases h1 : TrimSpace input.Title = ""
      · rw [if_pos h1]; exact h
      · rw [if_neg h1]
        by_cases h2 : len (TrimSpace input.Title) > 255
        · rw [if_pos h2]; exact h
        · rw [if_neg h2]
          by_cases h3 : len (TrimSpace input.Description) > 1000
          · rw [if_pos h3]; exact h
          · rw [if_neg h3]
            intro t ht
            simp only [TodoRepository.Create, List.mem_append, List.mem_singleton] at ht
            rcases ht with ht | rfl
            · exact h t ht
            · exact hc _ _ _ h1 (by omega) (by omega)
    | getByID id => exact h
    | getAll => exact h
    | update now id input =>
      show ∀ t ∈ (TodoService.Update r now id input).1.heap, P t
      by_cases hid : id ≤ 0
      · simp only [TodoService.Update, validateID, if_pos hid]
        exact h
      · cases hv : validateUpdateInput input with
        | some err =>
          simp only [TodoService.Update, validateID, if_neg hid, hv]
          exact h
        | none =>
          rw [Service_Update_ok r now id input (by omega) hv]
          exact heap_Update_forall r now id _ h (fun t ht => hu now input t hv (h t ht))
    | delete id =>
      show ∀ t ∈ (TodoService.Delete r id).1.heap, P t
      by_cases hid : id ≤ 0
      · simp only [TodoService.Delete, validateID, if_pos hid]
        exact h
      · simp only [TodoService.Delete, validateID, if_neg hid, TodoRepository.Delete]
        cases mapGet r.todos id <;> exact h
    | getFiltered completed search => exact h

/-- C24: after any sequence of calls of the service (Create, GetByID, GetAll,
Update, Delete, GetFiltered) on a new repository, every record in the store
has a title that is not empty, does not begin or end with a white space
character and is at most 255 bytes long, and a description that does not
begin or end with a white space character and is at most 1000 bytes long. -/
theorem stored_fields_valid (cs : List Call) (k : Int) (p : Ptr) (t : Todo) :
    mapGet (serveAll NewTodoRepository cs).todos k = some p →
    (serveAll NewTodoRepository cs).load p = some t →
    t.Title ≠ "" ∧
    (∀ c, t.Title.data.head? = some c → isSpace c = false) ∧
    (∀ c, t.Title.data.getLast? = some c → isSpace c = false) ∧
    len t.Title ≤ 255 ∧
    (∀ c, t.Description.data.head? = some c → isSpace c = false) ∧
    (∀ c, t.Description.data.getLast? = some c → isSpace c = false) ∧
    len t.Description ≤ 1000 := by
  intro _ hl
  have hmem : t ∈ (serveAll NewTodoRepository cs).heap := List.getElem?_mem hl
  refine @serveAll_forall (fun t : Todo => t.Title ≠ "" ∧
    (∀ c, t.Title.data.head? = some c → isSpace c = false) ∧
    (∀ c, t.Title.data.getLast? = some c → isSpace c = false) ∧
    len t.Title ≤ 255 ∧
    (∀ c, t.Description.data.head? = some c → isSpace c = false) ∧
    (∀ c, t.Description.data.getLast? = some c → isSpace c = false) ∧
    len t.Description ≤ 1000) ?_ ?_ cs NewTodoRepository ?_ t hmem
  · intro id now input h1 h2 h3
    exact ⟨h1, TrimSpace_head _, TrimSpace_getLast _, h2,
      TrimSpace_head _, TrimSpace_getLast _, h3⟩
  · intro now input t hv ht
    obtain ⟨hvt, hvd⟩ := validateUpdateInput_none hv
    obtain ⟨a1, a2, a3, a4, a5, a6, a7⟩ := ht
    rw [applyUpdate_eq]
    obtain ⟨ti, de, co⟩ := input
    have hT : (ti.map TrimSpace).getD t.Title ≠ "" ∧
        (∀ c, ((ti.map TrimSpace).getD t.Title).data.head? = some c → isSpace c = false) ∧
        (∀ c, ((ti.map TrimSpace).getD t.Title).data.getLast? = some c → isSpace c = false) ∧
        len ((ti.map TrimSpace).getD t.Title) ≤ 255 := by
      cases ti with
      | none => exact ⟨a1, a2, a3, a4⟩
      | some x =>
        have := validateTitle_none (hvt x rfl)
        exact ⟨this.1, TrimSpace_head _, TrimSpace_getLast _, this.2⟩
    have hD : (∀ c, ((de.map TrimSpace).getD t.Description).data.head? = some c →
          isSpace c = false) ∧
        (∀ c, ((de.map TrimSpace).getD t.Description).data.getLast? = some c →
          isSpace c = false) ∧
        len ((de.map TrimSpace).getD t.Description) ≤ 1000 := by
      cases de with
      | none => exact ⟨a5, a6, a7⟩
      | some x =>
        have := validateDescription_none (hvd x rfl)
        exact ⟨TrimSpace_head _, TrimSpace_getLast _,
          le_trans (len_TrimSpace_le x) this⟩
    exact ⟨hT.1, hT.2.1, hT.2.2.1, hT.2.2.2, hD.1, hD.2.1, hD.2.2⟩
  · intro t ht
    simp [NewTodoRepository] at ht

theorem stored_fields_valid_witness :
    mapGet (serveAll NewTodoRepository sampleCalls).todos 1 = some 0 ∧
    (serveAll NewTodoRepository sampleCalls).load 0 = some sampleRecord ∧
    sampleRecord.Title ≠ "" ∧
    (∀ c, sampleRecord.Title.data.head? = some c → isSpace c = false) ∧
    (∀ c, sampleRecord.Title.data.getLast? = some c → isSpace c = false) ∧
    len sampleRecord.Title ≤ 255 ∧
    (∀ c, sampleRecord.Description.data.head? = some c → isSpace c = false) ∧
    (∀ c, sampleRecord.Description.data.getLast? = some c → isSpace c = false) ∧
    len sampleRecord.Description ≤ 1000 :=
  ⟨by decide, by decide,
    stored_fields_valid sampleCalls 1 0 sampleRecord (by decide) (by decide)⟩

/-! ## The description rule of Create and of Update -/

theorem utf8Len_replicate_a (n : Nat) : String.utf8Len (List.replicate n 'a') = n := by
  induction n with
  | zero => rfl
  | succ n ih =>
    rw [List.replicate_succ, String.utf8Len_cons, ih]
    have : Char.utf8Size 'a' = 1 := by decide
    omega

theorem len_desc1001 : len desc1001 = 1001 := by
  show String.utf8Len (List.replicate 1000 'a' ++ [' ']) = 1001
  rw [String.utf8Len_append, utf8Len_replicate_a]
  decide

theorem TrimSpace_desc1001 : TrimSpace desc1001 = desc1000 := by
  unfold TrimSpace desc1001 desc1000
  have h1 : (List.replicate 1000 'a' ++ [' ']).dropWhile isSpace
      = List.replicate 1000 'a' ++ [' '] := by
    have e : List.replicate 1000 'a' ++ [' '] = 'a' :: (List.replicate 999 'a' ++ [' ']) := by
      rw [show (1000 : Nat) = 999 + 1 from rfl, List.replicate_succ]
      rfl
    rw [e, List.dropWhile_cons_of_neg (by decide)]
  have h2 : (List.replicate 1000 'a').rdropWhile isSpace = List.replicate 1000 'a' := by
    rw [List.rdropWhile_eq_self_iff]
    intro hl
    rw [List.getLast_replicate]
    decide
  simp only [h1]
  rw [List.rdropWhile_concat, if_pos (by decide), h2]

theorem len_desc1000 : len desc1000 = 1000 := utf8Len_replicate_a 1000

/-- C25, the code at the failing input: record 1 exists in `sampleRepo`; the
description of 1000 letters and one final space is 1001 bytes long and its
trimmed form 1000 bytes; `Update` of the service on id 1 with that description
present and the title absent answers `ErrDescriptionTooLong` and leaves the
state as it is, while `Create` of the service with the valid title
"Test Task" and the same description succeeds. In general `Update` with
id > 0, title absent and description d answers `ErrDescriptionTooLong`
exactly when `len d > 1000`, and `Create` with a valid title exactly when
`len (TrimSpace d) > 1000`. -/
theorem description_rule_differs :
    mapGet sampleRepo.todos 1 = some 0 ∧
    validateTitle "Test Task" = none ∧
    len desc1001 = 1001 ∧ len (TrimSpace desc1001) = 1000 ∧
    TodoService.Update sampleRepo 20 1 ⟨none, some desc1001, none⟩
      = (sampleRepo, .error .ErrDescriptionTooLong) ∧
    TodoService.Create sampleRepo 20 ⟨"Test Task", desc1001, false⟩
      = sampleRepo.Create 20 ⟨"Test Task", desc1000, false⟩ ∧
    (TodoService.Create sampleRepo 20 ⟨"Test Task", desc1001, false⟩).2 = .ok 1 ∧
    (∀ (r : TodoRepository) (now : Time) (id : Int) (d : String), 0 < id →
      ((TodoService.Update r now id ⟨none, some d, none⟩).2 = .error .ErrDescriptionTooLong
        ↔ len d > 1000)) ∧
    (∀ (r : TodoRepository) (now : Time) (title d : String) (c : Bool),
      validateTitle title = none →
      ((TodoService.Create r now ⟨title, d, c⟩).2 = .error .ErrDescriptionTooLong
        ↔ len (TrimSpace d) > 1000)) := by
  have hT : TrimSpace "Test Task" = "Test Task" := by decide
  have hC : TodoService.Create sampleRepo 20 ⟨"Test Task", desc1001, false⟩
      = sampleRepo.Create 20 ⟨"Test Task", desc1000, false⟩ := by
    rw [Service_Create_eq]
    simp only [hT, TrimSpace_desc1001, len_desc1000]
    rw [if_neg (by decide), if_neg (by decide), if_neg (by decide)]
  refine ⟨by decide, by decide, len_desc1001, by rw [TrimSpace_desc1001, len_desc1000],
    ?_, hC, by rw [hC]; rfl, ?_, ?_⟩
  · have hv : validateUpdateInput ⟨none, some desc1001, none⟩
        = some .ErrDescriptionTooLong := by
      simp only [validateUpdateInput, validateDescription, len_desc1001, MaxDescriptionLength]
      rfl
    simp only [TodoService.Update, validateID, hv]
    rfl
  · intro r now id d hid
    have hnle : ¬ id ≤ 0 := by omega
    by_cases hd : len d > 1000
    · have hv : validateUpdateInput ⟨none, some d, none⟩ = some .ErrDescriptionTooLong := by
        simp only [validateUpdateInput, validateDescription, MaxDescriptionLength, if_pos hd]
      simp only [TodoService.Update, validateID, if_neg hnle, hv, hd]
    · have hv : validateUpdateInput ⟨none, some d, none⟩ = none := by
        simp only [validateUpdateInput, validateDescription, MaxDescriptionLength, if_neg hd]
      rw [Service_Update_ok r now id _ hid hv]
      simp only [hd, iff_false]
      unfold TodoRepository.Update
      cases mapGet r.todos id <;> simp
  · intro r now title d c hv
    obtain ⟨h1, h2⟩ := validateTitle_none hv
    rw [Service_Create_eq]
    simp only [if_neg h1, if_neg (show ¬ len (TrimSpace title) > 255 by omega)]
    by_cases hd : len (TrimSpace d) > 1000
    · rw [if_pos hd]
      exact ⟨fun _ => hd, fun _ => rfl⟩
    · rw [if_neg hd]
      simp [TodoRepository.Create, hd]

end TodoApp
